import Mathlib

/-
Verification development for the aws-cloudformation-rpdk core:
the JSON-schema normalizer (collapse_and_resolve_schema), the contract
suite scenarios (invalid create, update identifier invariance), and the
test-command override loading (get_overrides / render_jinja).

JSON documents are embedded as an inductive type; Python dicts become
insertion-ordered association lists (assignment to an existing key keeps
its position, new keys are appended, matching CPython semantics).
Recursive procedures are given explicit fuel so that every definition is
structurally recursive and kernel-evaluable; a fuel-exhaustion outcome is
a distinguished error value, so termination statements become statements
about the existence (or non-existence) of sufficient fuel.
-/

namespace Rpdk

/-- JSON value tree: the data model shared by schema documents, canonical
schema maps' values, resource models and override documents. -/
inductive JSON where
  | null
  | bool (b : Bool)
  | num (n : Int)
  | str (s : String)
  | arr (elems : List JSON)
  | obj (entries : List (String × JSON))

mutual

/-- Structural equality test on JSON values (Python `==` on parsed JSON,
except that object keys are compared in insertion order; every object
equality asserted in this development is written in the model's own
insertion order, so the distinction is immaterial here). -/
def beqJ : JSON → JSON → Bool
  | .null, .null => true
  | .bool a, .bool b => a == b
  | .num a, .num b => a == b
  | .str a, .str b => a == b
  | .arr xs, .arr ys => beqL xs ys
  | .obj xs, .obj ys => beqO xs ys
  | _, _ => false

/-- Pointwise equality test on JSON lists. -/
def beqL : List JSON → List JSON → Bool
  | [], [] => true
  | x :: xs, y :: ys => beqJ x y && beqL xs ys
  | _, _ => false

/-- Pointwise equality test on JSON object entry lists. -/
def beqO : List (String × JSON) → List (String × JSON) → Bool
  | [], [] => true
  | (k, v) :: xs, (k2, v2) :: ys => k == k2 && beqJ v v2 && beqO xs ys
  | _, _ => false

end

/-- Entries of a JSON object; non-objects have none (total projection). -/
def objEntries : JSON → List (String × JSON)
  | .obj kvs => kvs
  | _ => []

/-- Dictionary lookup on an association list. -/
def lookupKey : List (String × JSON) → String → Option JSON
  | [], _ => none
  | (k, v) :: rest, key => if k = key then some v else lookupKey rest key

/-- Key membership in an association list. -/
def hasKey (kvs : List (String × JSON)) (key : String) : Bool :=
  (lookupKey kvs key).isSome

/-- Python dict assignment: replace the value of an existing key in place
(keeping its position), or append a new key at the end. -/
def setKey : List (String × JSON) → String → JSON → List (String × JSON)
  | [], key, v => [(key, v)]
  | (k, w) :: rest, key, v =>
      if k = key then (k, v) :: rest else (k, w) :: setKey rest key v

/-- Python `dict.update`: fold assignment of every entry of the second
dictionary over the first. -/
def dictUpdate (base upd : List (String × JSON)) : List (String × JSON) :=
  upd.foldl (fun acc kv => setKey acc kv.1 kv.2) base

/-- Keys of an association list, in order. -/
def keysOf (kvs : List (String × JSON)) : List String :=
  kvs.map (·.1)

/-- Assignment of a key inside a JSON object value (identity on
non-objects). -/
def setObjKey (j : JSON) (key : String) (v : JSON) : JSON :=
  match j with
  | .obj kvs => .obj (setKey kvs key v)
  | other => other

/-- Membership of a JSON value in a list, via structural equality. -/
def memJ (x : JSON) (xs : List JSON) : Bool :=
  xs.any (beqJ x)

/-- Hex digit character (uppercase) for a value below 16, as produced by
percent-encoding. -/
def hexDigit (n : Nat) : Char :=
  if n < 10 then Char.ofNat (48 + n) else Char.ofNat (55 + n)

/-- Numeric value of a hex digit character, if it is one. -/
def hexVal (c : Char) : Option Nat :=
  if 48 ≤ c.toNat ∧ c.toNat ≤ 57 then some (c.toNat - 48)
  else if 65 ≤ c.toNat ∧ c.toNat ≤ 70 then some (c.toNat - 55)
  else if 97 ≤ c.toNat ∧ c.toNat ≤ 102 then some (c.toNat - 87)
  else none

/-- Characters left untouched by percent-encoding (urllib quote with an
empty safe set): alphanumerics and `-`, `_`, `.`, `~`. -/
def isUnreserved (c : Char) : Bool :=
  c.isAlphanum || c = '-' || c = '_' || c = '.' || c = '~'

/-- Percent-encode one character. -/
def percentEncodeChar (c : Char) : List Char :=
  if isUnreserved c then [c]
  else ['%', hexDigit (c.toNat / 16), hexDigit (c.toNat % 16)]

/-- Modelled from the spec: `rpdk.jsonutils.pointer` percent-encoding of
pattern-property segments ("pattern-property segments are percent-encoded
so they remain valid path components", spec section 3); the repository only
ships its tests, whose expected pointers
(`%5BA-Za-z0-9%5D%7B1%2C64%7D` for `[A-Za-z0-9]{1,64}`) this function
reproduces. -/
def percentEncode (s : String) : String :=
  String.mk (s.data.foldr (fun c acc => percentEncodeChar c ++ acc) [])

/-- Percent-decode a character list; invalid escapes are left as-is, as in
urllib unquote. -/
def percentDecodeList : List Char → List Char
  | '%' :: a :: b :: rest =>
      match hexVal a, hexVal b with
      | some x, some y => Char.ofNat (16 * x + y) :: percentDecodeList rest
      | _, _ => '%' :: percentDecodeList (a :: b :: rest)
  | c :: rest => c :: percentDecodeList rest
  | [] => []

/-- JSON-pointer unescaping per RFC 6901: `~1` decodes to `/` and `~0`
to `~`. -/
def tildeUnescape : List Char → List Char
  | '~' :: '1' :: rest => '/' :: tildeUnescape rest
  | '~' :: '0' :: rest => '~' :: tildeUnescape rest
  | c :: rest => c :: tildeUnescape rest
  | [] => []

/-- Split a character list on `/`. -/
def splitSlash (cs : List Char) : List (List Char) :=
  cs.foldr
    (fun c acc =>
      match acc with
      | [] => if c = '/' then [[], []] else [[c]]
      | seg :: rest => if c = '/' then [] :: seg :: rest else (c :: seg) :: rest)
    [[]]

/-- Decode one fragment segment: percent-decode then RFC 6901 unescape. -/
def decodeSegment (cs : List Char) : String :=
  String.mk (tildeUnescape (percentDecodeList cs))

/-- Modelled from the spec: `fragment_decode` of
`rpdk.core.jsonutils.pointer` (absent from the sources; only its callers
`get_overrides` and the normalizer are present). Splits the fragment on
`/`, requires the first part to equal the given prefix (else the Python
code raises ValueError, modelled as `Except.error`), and decodes the
remaining parts into a path tuple. -/
def fragment_decode (pfx : String) (fragment : String) : Except String (List String) :=
  match splitSlash fragment.data with
  | [] => .error "empty"
  | head :: rest =>
      if String.mk head = pfx then .ok (rest.map decodeSegment)
      else .error ("Expected prefix " ++ pfx)

/-- Errors of schema normalization. `normalization` (unresolvable
reference) and `constraint` (unsupported schema shape) both carry the
pointer their Python message names; `outOfFuel` is the embedding's marker
for a run that did not finish within the given fuel. -/
inductive NormError where
  | normalization (ptr : String)
  | constraint (ptr : String) (msg : String)
  | outOfFuel

/-- Resolve a decoded pointer path against a document by following its
segments through object keys. -/
def resolvePath : JSON → List String → Option JSON
  | j, [] => some j
  | .obj kvs, p :: rest =>
      match lookupKey kvs p with
      | some v => resolvePath v rest
      | none => none
  | _, _ :: _ => none

/-- Modelled from the spec: `_find_subschema_by_ref` of
`JsonSchemaNormalizer` (spec section 4.1: "resolve `target` against the
root document by following its path segments; fail with
`NormalizationError` (naming the unresolved pointer) if any segment is
missing"); the class itself is absent from the sources, only
`tests/jsonutils/test_jsonschema_normalizer.py` is present. -/
def find_subschema_by_ref (doc : JSON) (ref : String) : Except NormError JSON :=
  match fragment_decode "#" ref with
  | .error _ => .error (.normalization ref)
  | .ok parts =>
      match resolvePath doc parts with
      | some j => .ok j
      | none => .error (.normalization ref)

/-- Combinator families flattened by the normalizer. -/
def combinatorKeys : List String := ["allOf", "anyOf", "oneOf"]

/-- Whether a node carries any combinator key. -/
def hasCombinator (kvs : List (String × JSON)) : Bool :=
  combinatorKeys.any (hasKey kvs)

/-- Shallow merge of one schema entry over another: when both are objects
the later entry is applied as a dict update over the earlier one (keys of
the later entry overwrite, other keys of the earlier entry survive, and
nested values are replaced wholesale, never merged recursively);
otherwise the later entry replaces the earlier. -/
def mergeEntry (base upd : JSON) : JSON :=
  match base, upd with
  | .obj b, .obj u => .obj (dictUpdate b u)
  | _, upd => upd

/-- Key-by-key merge of a `properties`/`patternProperties` map from a
combinator branch into the accumulated map. -/
def mergePropMaps (base upd : List (String × JSON)) : List (String × JSON) :=
  upd.foldl
    (fun acc kv =>
      match lookupKey acc kv.1 with
      | some old => setKey acc kv.1 (mergeEntry old kv.2)
      | none => acc ++ [kv])
    base

/-- Append elements of the second list not already present (concatenation
with duplicates removed, keeping first-occurrence order). -/
def dedupAppend (base upd : List JSON) : List JSON :=
  upd.foldl (fun acc x => if memJ x acc then acc else acc ++ [x]) base

/-- Merge of `required` arrays from combinator branches. -/
def mergeRequired (base upd : JSON) : JSON :=
  match base, upd with
  | .arr b, .arr u => .arr (dedupAppend b u)
  | _, upd => upd

/-- Apply one combinator branch over the accumulated node, key by key. -/
def applyBranch (base : List (String × JSON)) (branch : List (String × JSON)) :
    List (String × JSON) :=
  branch.foldl
    (fun acc kv =>
      if kv.1 = "properties" ∨ kv.1 = "patternProperties" then
        let cur := (lookupKey acc kv.1).getD (.obj [])
        setKey acc kv.1 (.obj (mergePropMaps (objEntries cur) (objEntries kv.2)))
      else if kv.1 = "required" then
        let cur := (lookupKey acc kv.1).getD (.arr [])
        setKey acc kv.1 (mergeRequired cur kv.2)
      else setKey acc kv.1 kv.2)
    base

/-- Modelled from the spec: `_squash_array_keys` of `JsonSchemaNormalizer`
(spec section 4.1: combinator branches are "walked and merged into the
parent node", merge is "shallow, key-by-key, last-branch-wins",
`required` arrays "concatenate with duplicates removed", and "after
merging, combinator keys are stripped"); the class is absent from the
sources. Where the spec's words conflict with the repository's own tests,
the tests win: `test_squash_array_keys_pattern_properties` requires the
branch entry `{"test": {"type": "object"}}` merged over
`{"test": {"$ref": "#/definitions"}}` to yield
`{"test": {"type": "object", "$ref": "#/definitions"}}`, i.e. a later
branch's entry is applied as a one-level dict update over the earlier
entry rather than replacing it wholesale. -/
def squash_array_keys (key : String) (node : JSON) : JSON :=
  let kvs := objEntries node
  let base := kvs.filter (fun kv => ¬ combinatorKeys.contains kv.1)
  let _ := key
  .obj (combinatorKeys.foldl
    (fun acc ck =>
      match lookupKey kvs ck with
      | some (.arr branches) =>
          branches.foldl (fun acc2 br => applyBranch acc2 (objEntries br)) acc
      | _ => acc)
    base)

/-- Canonical schema map under construction: pointer-keyed association
list; a `JSON.null` value is the placeholder inserted before descending
into a pointer's children. -/
def SMap := List (String × JSON)

/-- The back-reference node `{"$ref": pointer}`. -/
def refObj (ptr : String) : JSON :=
  .obj [("$ref", .str ptr)]

/-- Whether an `additionalProperties`/`additionalItems` value is
schema-valued (a JSON object), the shape the normalizer rejects. -/
def isSchemaValued : Option JSON → Bool
  | some (.obj _) => true
  | _ => false

/-- The mutually recursive obligations of the normalizer's walk, embedded
as one job type so the whole recursion is structural on fuel:
`walk`/`ref`/`arrayT`/`objectT` mirror `_walk`, `_collapse_ref_type`,
`_collapse_array_type` and `_collapse_object_type`; `entries` is the
iteration walking each child of a `properties` (plain child segments) or
`patternProperties` (percent-encoded child segments) map, returning the
rewritten map packed as a JSON object. -/
inductive Job where
  | walk (path : String) (node : JSON)
  | ref (target : String)
  | arrayT (key : String) (node : JSON)
  | objectT (key : String) (node : JSON)
  | entries (base : String) (enc : Bool) (kvs : List (String × JSON))

/-- Modelled from the spec: the memoized recursive walk of
`JsonSchemaNormalizer` (spec section 4.1), whose source is absent; its
behavior is pinned by `tests/jsonutils/test_jsonschema_normalizer.py`:
a pointer already present in the map immediately yields
`{"$ref": pointer}`; a `$ref` node recurses into the target's own
pointer; combinator keys are squashed before dispatch on `type`
(defaulting to object); primitive nodes return unchanged and record
nothing; an object node declaring `properties` registers a placeholder,
walks its children, records the rewritten node under its own pointer and
returns a back-reference; `patternProperties`-only and array nodes
rewrite their children in place and return the node inline; unsupported
shapes raise `ConstraintError` naming the pointer. The `$ref` value of a
node is taken when it is a string (the only shape the Python code can
pass to `_collapse_ref_type`). -/
def refTarget (kvs : List (String × JSON)) : Option String :=
  match lookupKey kvs "$ref" with
  | some (.str t) => some t
  | _ => none

/-- Dispatch classes of the walk: array nodes, object nodes (the default
when `type` is absent, as in the Python `.get(TYPE, OBJECT)`), and
primitive nodes returned unchanged. -/
inductive TypeKind where
  | arrK
  | objK
  | primK

/-- The type-dispatch of a node. -/
def typeKind (node2 : JSON) : TypeKind :=
  match lookupKey (objEntries node2) "type" with
  | some (.str "array") => .arrK
  | some (.str "object") => .objK
  | none => .objK
  | some _ => .primK

def step (doc : JSON) (recur : SMap → Job → Except NormError (SMap × JSON))
    (st : SMap) : Job → Except NormError (SMap × JSON)
  | .walk path node =>
      if hasKey st path then .ok (st, refObj path)
      else
        match node with
        | .obj kvs =>
            match refTarget kvs with
            | some target => recur st (.ref target)
            | none =>
                let node2 :=
                  if hasCombinator kvs then squash_array_keys path (.obj kvs)
                  else .obj kvs
                match typeKind node2 with
                | .arrK => recur st (.arrayT path node2)
                | .objK => recur st (.objectT path node2)
                | .primK => .ok (st, node2)
        | other => .ok (st, other)
  | .ref target =>
      if hasKey st target then .ok (st, refObj target)
      else
        match find_subschema_by_ref doc target with
        | .error e => .error e
        | .ok node => recur st (.walk target node)
  | .arrayT key node =>
      if isSchemaValued (lookupKey (objEntries node) "additionalItems") then
        .error (.constraint key ("Object at '" ++ key ++
          "' has schema-valued additionalItems, which is not supported"))
      else
        match lookupKey (objEntries node) "items" with
        | some items =>
            match recur st (.walk (key ++ "/items") items) with
            | .error e => .error e
            | .ok (st1, r) => .ok (st1, setObjKey node "items" r)
        | none => .ok (st, node)
  | .objectT key node =>
      if isSchemaValued (lookupKey (objEntries node) "additionalProperties") then
        .error (.constraint key ("Object at '" ++ key ++
          "' has schema-valued additionalProperties, which is not supported"))
      else
        match lookupKey (objEntries node) "properties" with
        | some props =>
            if hasKey (objEntries node) "patternProperties" then
              .error (.constraint key ("Object at '" ++ key ++
                "' has mutually exclusive 'properties' and 'patternProperties'"))
            else
              match recur (setKey st key .null) (.entries key false (objEntries props)) with
              | .error e => .error e
              | .ok (st1, r) =>
                  let node2 := setObjKey node "properties" (.obj (objEntries r))
                  .ok (setKey st1 key node2, refObj key)
        | none =>
            match lookupKey (objEntries node) "patternProperties" with
            | some pp =>
                match recur st (.entries key true (objEntries pp)) with
                | .error e => .error e
                | .ok (st1, r) =>
                    .ok (st1, setObjKey node "patternProperties" (.obj (objEntries r)))
            | none => .ok (st, node)
  | .entries _ _ [] => .ok (st, .obj [])
  | .entries base enc ((k, v) :: rest) =>
      let childPath :=
        if enc then base ++ "/patternProperties/" ++ percentEncode k
        else base ++ "/properties/" ++ k
      match recur st (.walk childPath v) with
      | .error e => .error e
      | .ok (st1, r) =>
          match recur st1 (.entries base enc rest) with
          | .error e => .error e
          | .ok (st2, restObj) => .ok (st2, .obj ((k, r) :: objEntries restObj))

/-- The walk's recursion: `step` unfolded under an explicit fuel bound;
exhausted fuel is the distinguished `outOfFuel` error, so `run` is total
and structurally recursive while faithfully reproducing the unbounded
recursion of the Python methods at every sufficient fuel. -/
def run (doc : JSON) : Nat → SMap → Job → Except NormError (SMap × JSON)
  | 0, _, _ => .error .outOfFuel
  | fuel + 1, st, j => step doc (run doc fuel) st j

/-- The walk `_walk(property_path, sub_schema)` at a given fuel. -/
def walk (doc : JSON) (fuel : Nat) (st : SMap) (path : String) (node : JSON) :
    Except NormError (SMap × JSON) :=
  run doc fuel st (.walk path node)

/-- `_collapse_ref_type(ref_path)` at a given fuel. -/
def collapse_ref_type (doc : JSON) (fuel : Nat) (st : SMap) (target : String) :
    Except NormError (SMap × JSON) :=
  run doc fuel st (.ref target)

/-- `_collapse_array_type(key, sub_schema)` at a given fuel. -/
def collapse_array_type (doc : JSON) (fuel : Nat) (st : SMap) (key : String) (node : JSON) :
    Except NormError (SMap × JSON) :=
  run doc fuel st (.arrayT key node)

/-- `_collapse_object_type(key, sub_schema)` at a given fuel. -/
def collapse_object_type (doc : JSON) (fuel : Nat) (st : SMap) (key : String) (node : JSON) :
    Except NormError (SMap × JSON) :=
  run doc fuel st (.objectT key node)

/-- Modelled from the spec: `collapse_and_resolve_schema()` (spec section
4.1: walk the whole document from the root pointer `#` over an empty map
and return the resulting canonical schema map); the method's source is
absent. -/
def collapse_and_resolve_schema (doc : JSON) (fuel : Nat) : Except NormError SMap :=
  match run doc fuel [] (.walk "#" doc) with
  | .error e => .error e
  | .ok (st, _) => .ok st

/-- Re-running the normalizer walk over an already-populated canonical
map: the second `collapse_and_resolve_schema()` call on the same
normalizer instance, whose `_schema_map` still holds the first run's
result. -/
def collapse_and_resolve_from (doc : JSON) (fuel : Nat) (st : SMap) : Except NormError SMap :=
  match run doc fuel st (.walk "#" doc) with
  | .error e => .error e
  | .ok (st2, _) => .ok st2

/-- CRUDL actions of `rpdk.core.contract.interface.Action`. -/
inductive Action where
  | create
  | read
  | update
  | delete
  | listAction
deriving DecidableEq

/-- Terminal and transient operation statuses of a progress event. -/
inductive OperationStatus where
  | success
  | failed
  | inProgress
deriving DecidableEq

/-- Handler error taxonomy (`HandlerErrorCode`), the codes negative-path
scenarios assert against. -/
inductive HandlerErrorCode where
  | notFound
  | alreadyExists
  | noOperationToPerform
  | invalidRequest
  | serviceInternalError
  | networkFailure
  | throttling
  | generalServiceException
deriving DecidableEq

/-- One exchange's result in the asynchronous invocation protocol
(spec section 3, Progress Event). -/
structure ProgressEvent where
  status : OperationStatus
  resourceModel : Option JSON
  errorCode : Option HandlerErrorCode
  message : String
  callbackDelaySeconds : Nat

/-- Value lookup along a path of property names in a resource model. -/
def getAtPath : JSON → List String → Option JSON
  | j, [] => some j
  | .obj kvs, p :: rest =>
      match lookupKey kvs p with
      | some v => getAtPath v rest
      | none => none
  | _, _ :: _ => none

/-- Value assignment along a path of property names, creating missing
intermediate objects; a non-object intermediate leaves the model
unchanged. -/
def setAtPath : JSON → List String → JSON → JSON
  | _, [], v => v
  | .obj kvs, p :: rest, v =>
      let child := (lookupKey kvs p).getD (.obj [])
      .obj (setKey kvs p (setAtPath child rest v))
  | j, _ :: _, _ => j

/-- Whether assignment along this path can later be read back: every
existing intermediate node on the path is an object. -/
def pathSettable : JSON → List String → Bool
  | _, [] => true
  | .obj kvs, p :: rest =>
      match lookupKey kvs p with
      | some v => pathSettable v rest
      | none => true
  | _, _ :: _ => false

/-- Modelled from the spec: the slice of `ResourceClient` the contract
scenarios consume (spec sections 4.2 and 4.3); `resource_client.py` is
absent from the sources. The synthesized create/update base examples are
carried as data since example synthesis itself is not under test here. -/
structure ResourceClient where
  createExample : JSON
  updateExampleBase : JSON
  readOnlyPaths : List (List String)
  writeOnlyPaths : List (List String)
  primaryIdentifierPaths : List (List String)

/-- Modelled from the spec: `generate_create_example()` "synthesizes a
minimal model satisfying required and writable constraints" (spec section
4.2); carried as the client's data. -/
def generate_create_example (c : ResourceClient) : JSON :=
  c.createExample

/-- The synthetic value the invalid-create scenario plants at a readOnly
path. -/
def invalidReadOnlyValue : JSON :=
  .str "invalid-read-only-assignment"

/-- Modelled from the spec: `generate_invalid_create_example()`
"deliberately sets a value at a readOnly path to exercise rejection
behavior" (spec section 4.2). -/
def generate_invalid_create_example (c : ResourceClient) : JSON :=
  match c.readOnlyPaths with
  | [] => c.createExample
  | p :: _ => setAtPath c.createExample p invalidReadOnlyValue

/-- Modelled from the spec: `generate_update_example(existingModel)`
"additionally copies the primary-identifier values verbatim from
existingModel, since identifiers are immutable once a resource exists"
(spec section 4.2). -/
def generate_update_example (c : ResourceClient) (existing : JSON) : JSON :=
  c.primaryIdentifierPaths.foldl
    (fun m p =>
      match getAtPath existing p with
      | some v => setAtPath m p v
      | none => m)
    c.updateExampleBase

/-- Modelled from the spec: `is_primary_identifier_equal`, "structural
equality restricted to the identifier paths" (spec section 4.3). -/
def is_primary_identifier_equal (paths : List (List String)) (a b : JSON) : Bool :=
  paths.all fun p =>
    match getAtPath a p, getAtPath b p with
    | some x, some y => beqJ x y
    | none, none => true
    | _, _ => false

mutual

/-- All leaves of a model, as path-value pairs. -/
def leavesJ : JSON → List (List String × JSON)
  | .obj kvs => leavesO kvs
  | other => [([], other)]

/-- Leaves of an object entry list. -/
def leavesO : List (String × JSON) → List (List String × JSON)
  | [] => []
  | (k, v) :: rest => (leavesJ v).map (fun pv => (k :: pv.1, pv.2)) ++ leavesO rest

end

/-- Modelled from the spec: `compare_requested_model(requested, actual)`
asserts every leaf set in the request matches the actual model, except
for writeOnly leaves, which the handler never returns (spec section
4.3). -/
def compare_requested_model (c : ResourceClient) (requested actual : JSON) : Bool :=
  (leavesJ requested).all fun pv =>
    if c.writeOnlyPaths.contains pv.1 then true
    else
      match getAtPath actual pv.1 with
      | some v => beqJ v pv.2
      | none => false

/-- Contract assertion failures a scenario can report. -/
inductive ContractFailure where
  | wrongStatus (expected actual : OperationStatus)
  | missingErrorCode
  | emptyMessage
  | wrongErrorCode (expected : HandlerErrorCode) (actual : HandlerErrorCode)
  | enforceTimeout
  | modelMissing
  | modelMismatch
  | identifierChanged
deriving DecidableEq

/-- The handler transport as the orchestrator observes it: a queue of
per-invocation progress-event sequences (one element per logical
invocation, covering its initial response and every poll), plus the
record of every invocation issued. -/
structure Transport where
  queue : List (List ProgressEvent)
  calls : List (Action × JSON)

/-- Pop the next invocation's event sequence and record the call. -/
def popCall (t : Transport) (a : Action) (m : JSON) : List ProgressEvent × Transport :=
  match t.queue with
  | [] => ([], { queue := [], calls := t.calls ++ [(a, m)] })
  | es :: rest => (es, { queue := rest, calls := t.calls ++ [(a, m)] })

/-- Fallback event when the transport queue is exhausted. -/
def exhaustedEvent : ProgressEvent :=
  { status := .failed, resourceModel := none,
    errorCode := some .serviceInternalError,
    message := "transport exhausted", callbackDelaySeconds := 0 }

/-- Single request/response exchange (`ResourceClient.call`): no retry,
no assertion; the scenario's best-effort cleanup uses it and ignores the
result. -/
def call (t : Transport) (a : Action) (m : JSON) : ProgressEvent × Transport :=
  let (events, t1) := popCall t a m
  (events.headD exhaustedEvent, t1)

/-- First non-IN_PROGRESS event of an invocation's sequence: the terminal
status the poll loop reaches, if any. -/
def firstTerminal : List ProgressEvent → Option ProgressEvent
  | [] => none
  | e :: rest => if e.status = .inProgress then firstTerminal rest else some e

/-- Modelled from the spec: `call_and_assert(action, expectedStatus,
model, previousModel?)` (spec section 4.3): re-invokes while the status
is IN_PROGRESS; abandoning the loop on enforce-timeout (here: the event
sequence exhausts without a terminal status) is a reported contract
failure; on termination asserts the final status equals the expectation,
and for FAILED additionally asserts an errorCode from the taxonomy and a
non-empty message are present. -/
def call_and_assert (t : Transport) (a : Action) (expected : OperationStatus)
    (m : JSON) :
    Except ContractFailure (OperationStatus × ProgressEvent × Option HandlerErrorCode) ×
      Transport :=
  let (events, t1) := popCall t a m
  match firstTerminal events with
  | none => (.error .enforceTimeout, t1)
  | some ev =>
      if ev.status = expected then
        if ev.status = .failed then
          match ev.errorCode with
          | none => (.error .missingErrorCode, t1)
          | some ec =>
              if ev.message = "" then (.error .emptyMessage, t1)
              else (.ok (ev.status, ev, some ec), t1)
        else (.ok (ev.status, ev, ev.errorCode), t1)
      else (.error (.wrongStatus expected ev.status), t1)

/-- Outcome of one contract scenario. -/
inductive Outcome where
  | passed
  | skipped
  | failedWith (f : ContractFailure)
deriving DecidableEq

/-- The `_create_with_invalid_model` body of
`rpdk.core.contract.suite.handler_create`: inside a try/finally, build
the deliberately invalid model, call-and-assert CREATE to FAILED, assert
a non-empty message, and return the error code; the finally clause
issues a best-effort DELETE with the same model on every exit path. -/
def create_with_invalid_model (c : ResourceClient) (t : Transport) :
    Except ContractFailure HandlerErrorCode × Transport :=
  let requested := generate_invalid_create_example c
  let body :=
    match call_and_assert t .create .failed requested with
    | (.error e, t1) => (Except.error e, t1)
    | (.ok (_, resp, ec), t1) =>
        if resp.message = "" then (.error .emptyMessage, t1)
        else
          match ec with
          | some code => (.ok code, t1)
          | none => (.error .missingErrorCode, t1)
  let (_, t2) := call body.2 .delete requested
  (body.1, t2)

/-- Modelled from the spec: the `failed_event` decorator of
`contract_asserts` (absent from the sources): asserts the scenario body
reports the expected handler error code. -/
def failed_event (expected : HandlerErrorCode)
    (r : Except ContractFailure HandlerErrorCode) : Outcome :=
  match r with
  | .error e => .failedWith e
  | .ok code => if code = expected then .passed else .failedWith (.wrongErrorCode expected code)

/-- The `contract_invalid_create` scenario of
`rpdk.core.contract.suite.handler_create`: skipped when the schema
declares no readOnly property, otherwise `_create_with_invalid_model`
under `failed_event(error_code=HandlerErrorCode.InvalidRequest)`. -/
def contract_invalid_create (c : ResourceClient) (t : Transport) : Outcome × Transport :=
  match c.readOnlyPaths with
  | [] => (.skipped, t)
  | _ :: _ =>
      let (r, t1) := create_with_invalid_model c t
      (failed_event .invalidRequest r, t1)

/-- Python try/finally semantics of the `updated_resource` fixture's
teardown: the finally clause call-and-asserts a DELETE; an assertion
failure raised there supersedes the body's in-flight result. -/
def finallyDelete (t : Transport) (model : JSON)
    (r : Except ContractFailure (JSON × JSON × JSON × JSON)) :
    Except ContractFailure (JSON × JSON × JSON × JSON) × Transport :=
  match call_and_assert t .delete .success model with
  | (.error e, t1) => (.error e, t1)
  | (.ok _, t1) => (r, t1)

/-- The `updated_resource` fixture of
`rpdk.core.contract.suite.handler_update`: CREATE to SUCCESS, check the
input round-trips, generate the update example from the created model,
UPDATE to SUCCESS, check again, and yield (create request, created
model, update request, updated model); the finally clause deletes the
created model (the fixture's `model` variable keeps the created model,
not the updated one). -/
def updated_resource (c : ResourceClient) (t0 : Transport) :
    Except ContractFailure (JSON × JSON × JSON × JSON) × Transport :=
  let createRequest := generate_create_example c
  match call_and_assert t0 .create .success createRequest with
  | (.error e, t1) => finallyDelete t1 createRequest (.error e)
  | (.ok (_, resp1, _), t1) =>
      match resp1.resourceModel with
      | none => finallyDelete t1 createRequest (.error .modelMissing)
      | some created =>
          if compare_requested_model c createRequest created then
            let updateRequest := generate_update_example c created
            match call_and_assert t1 .update .success updateRequest with
            | (.error e, t2) => finallyDelete t2 created (.error e)
            | (.ok (_, resp2, _), t2) =>
                match resp2.resourceModel with
                | none => finallyDelete t2 created (.error .modelMissing)
                | some updated =>
                    if compare_requested_model c updateRequest updated then
                      finallyDelete t2 created
                        (.ok (createRequest, created, updateRequest, updated))
                    else finallyDelete t2 created (.error .modelMismatch)
          else finallyDelete t1 created (.error .modelMismatch)

/-- Modelled from the spec: `test_read_success` of `handler_commons`
(absent from the sources): READ the model and assert SUCCESS. -/
def test_read_success (t : Transport) (model : JSON) : Outcome × Transport :=
  match call_and_assert t .read .success model with
  | (.error e, t1) => (.failedWith e, t1)
  | (.ok _, t1) => (.passed, t1)

/-- The `contract_update_read_success` scenario of
`rpdk.core.contract.suite.handler_update`: after the `updated_resource`
fixture, asserts the primary identifier is unchanged between the created
and the updated model, then reads the updated model successfully. -/
def contract_update_read_success (c : ResourceClient) (t0 : Transport) : Outcome × Transport :=
  match updated_resource c t0 with
  | (.error e, t1) => (.failedWith e, t1)
  | (.ok (_, created, _, updated), t1) =>
      if is_primary_identifier_equal c.primaryIdentifierPaths created updated then
        test_read_success t1 updated
      else (.failedWith .identifierChanged, t1)

/-- Opening brace character, kept out of literals. -/
def lbrace : Char := Char.ofNat 123

/-- Closing brace character, kept out of literals. -/
def rbrace : Char := Char.ofNat 125

/-- Strip leading and trailing spaces from a character list. -/
def trimSpaces (cs : List Char) : List Char :=
  ((cs.dropWhile (· = ' ')).reverse.dropWhile (· = ' ')).reverse

/-- Scan up to the closing double brace of a Jinja variable expression,
returning the name characters and the remainder after the close. -/
def takeUntilClose : List Char → Option (List Char × List Char)
  | [] => none
  | [_] => none
  | c :: d :: rest =>
      if c = rbrace ∧ d = rbrace then some ([], rest)
      else
        match takeUntilClose (d :: rest) with
        | some (nm, r) => some (c :: nm, r)
        | none => none

/-- Fueled scan for Jinja template variables (double-brace expressions)
in a character stream. -/
def scanVarsF : Nat → List Char → List String
  | 0, _ => []
  | _ + 1, [] => []
  | _ + 1, [_] => []
  | f + 1, c :: d :: rest =>
      if c = lbrace ∧ d = lbrace then
        match takeUntilClose rest with
        | some (nm, rest2) => String.mk (trimSpaces nm) :: scanVarsF f rest2
        | none => []
      else scanVarsF f (d :: rest)

/-- Jinja template variables occurring in one string. -/
def scanVars (s : String) : List String :=
  scanVarsF s.data.length s.data

/-- String-keyed lookup in a string map (CloudFormation export values). -/
def lookupStr : List (String × String) → String → Option String
  | [], _ => none
  | (k, v) :: rest, key => if k = key then some v else lookupStr rest key

mutual

/-- Modelled from the spec: the undeclared template variables
`jinja2.meta.find_undeclared_variables` discovers in the serialized
overrides document (`render_jinja` in `rpdk/core/test.py` serializes the
parsed document and hands it to the Jinja engine, an external library):
every double-brace expression in any string, key or value, of the
document. -/
def jinjaVarsJ : JSON → List String
  | .str s => scanVars s
  | .arr xs => jinjaVarsL xs
  | .obj kvs => jinjaVarsO kvs
  | _ => []

/-- Template variables in a JSON list. -/
def jinjaVarsL : List JSON → List String
  | [] => []
  | x :: xs => jinjaVarsJ x ++ jinjaVarsL xs

/-- Template variables in object entries (keys included, since the whole
serialized document is templated). -/
def jinjaVarsO : List (String × JSON) → List String
  | [] => []
  | (k, v) :: rest => scanVars k ++ jinjaVarsJ v ++ jinjaVarsO rest

end

/-- Fueled substitution of Jinja variables inside one character stream:
each double-brace expression is replaced by its export value (a Jinja
Undefined renders as the empty string, a branch `render_jinja` never
reaches because it bails out first). -/
def substStrF (exports : List (String × String)) : Nat → List Char → List Char
  | 0, cs => cs
  | _ + 1, [] => []
  | _ + 1, [c] => [c]
  | f + 1, c :: d :: rest =>
      if c = lbrace ∧ d = lbrace then
        match takeUntilClose rest with
        | some (nm, rest2) =>
            match lookupStr exports (String.mk (trimSpaces nm)) with
            | some v => v.data ++ substStrF exports f rest2
            | none => substStrF exports f rest2
        | none => c :: substStrF exports f (d :: rest)
      else c :: substStrF exports f (d :: rest)

/-- Substitution of Jinja variables in one string. -/
def substStr (exports : List (String × String)) (s : String) : String :=
  String.mk (substStrF exports s.data.length s.data)

mutual

/-- Jinja rendering of the serialized document with a fully resolved
variable map: every string, key or value, gets its variables
substituted. -/
def substJ (exports : List (String × String)) : JSON → JSON
  | .str s => .str (substStr exports s)
  | .arr xs => .arr (substL exports xs)
  | .obj kvs => .obj (substO exports kvs)
  | other => other

/-- Substitution over a JSON list. -/
def substL (exports : List (String × String)) : List JSON → List JSON
  | [] => []
  | x :: xs => substJ exports x :: substL exports xs

/-- Substitution over object entries. -/
def substO (exports : List (String × String)) : List (String × JSON) → List (String × JSON)
  | [] => []
  | (k, v) :: rest => (substStr exports k, substJ exports v) :: substO exports rest

end

/-- The empty override document `{"CREATE": {}}` as JSON. -/
def emptyOverrideJ : JSON :=
  .obj [("CREATE", .obj [])]

/-- `render_jinja(overrides_raw, ...)` of `rpdk/core/test.py`: find the
undeclared template variables of the serialized overrides document; with
no variables the document is returned as parsed; if any variable is not
a CloudFormation export name, warn and return the empty override,
discarding the entire document; otherwise substitute every variable with
its export value. -/
def render_jinja (overridesRaw : JSON) (exports : List (String × String)) : JSON :=
  let vars := jinjaVarsJ overridesRaw
  if vars.isEmpty then overridesRaw
  else
    let invalid := vars.filter (fun v => (lookupStr exports v).isNone)
    if invalid.isEmpty then substJ exports overridesRaw
    else emptyOverrideJ

/-- The `OVERRIDES_VALIDATOR` Draft-6 schema of `rpdk/core/test.py`:
`CREATE`/`UPDATE` must be objects when present, no other key is allowed
(`additionalProperties: false`), and at least one of `CREATE`/`UPDATE`
is required; JSON-Schema object keywords are vacuous on non-object
instances. -/
def overridesValid (doc : JSON) : Bool :=
  match doc with
  | .obj kvs =>
      kvs.all (fun kv => kv.1 = "CREATE" ∨ kv.1 = "UPDATE") &&
      (match lookupKey kvs "CREATE" with
       | some (.obj _) => true
       | some _ => false
       | none => true) &&
      (match lookupKey kvs "UPDATE" with
       | some (.obj _) => true
       | some _ => false
       | none => true) &&
      (hasKey kvs "CREATE" || hasKey kvs "UPDATE")
  | _ => true

/-- Decoded overrides: per action, a list of decoded pointer paths with
their replacement values. -/
def Overrides := List (String × List (List String × JSON))

/-- `empty_override()` of `rpdk/core/test.py`. -/
def empty_override : Overrides :=
  [("CREATE", [])]

/-- Assignment into the decoded overrides map (Python dict assignment). -/
def setKeyOv : Overrides → String → List (List String × JSON) → Overrides
  | [], key, v => [(key, v)]
  | (k, w) :: rest, key, v =>
      if k = key then (k, v) :: rest else (k, w) :: setKeyOv rest key v

/-- The per-operation pointer decoding loop of `get_overrides`: each
pointer key is decoded with `fragment_decode(pointer, prefix="")`; a
ValueError (invalid pointer) skips that entry with a warning, valid
pointers are kept decoded to path tuples. -/
def decode_pointer_items : List (String × JSON) → List (List String × JSON)
  | [] => []
  | (ptr, v) :: rest =>
      match fragment_decode "" ptr with
      | .ok path => (path, v) :: decode_pointer_items rest
      | .error _ => decode_pointer_items rest

/-- The on-disk state of `overrides.json` as `get_overrides` observes
it: no project root, a missing file, or a parsed document. -/
inductive OverridesFile where
  | noRoot
  | absent
  | present (doc : JSON)

/-- `get_overrides(root, ...)` of `rpdk/core/test.py`: a falsy project
root or a missing overrides.json yields the empty override; the parsed
document is Jinja-rendered, then validated against
`OVERRIDES_VALIDATOR`, an invalid document again yielding the empty
override; finally every operation's pointer map is decoded, skipping
individually invalid pointers. -/
def get_overrides (file : OverridesFile) (exports : List (String × String)) : Overrides :=
  match file with
  | .noRoot => empty_override
  | .absent => empty_override
  | .present raw =>
      let rendered := render_jinja raw exports
      if overridesValid rendered then
        (objEntries rendered).foldl
          (fun acc kv => setKeyOv acc kv.1 (decode_pointer_items (objEntries kv.2)))
          empty_override
      else empty_override

/-- A schema whose only content is a self-referential `$ref` to the root
pointer: a reference cycle that passes through no `properties`-bearing
node. -/
def selfRefDoc : JSON :=
  .obj [("$ref", .str "#")]

/-- A schema with a self-recursive definition reachable through a
`properties`-bearing object node, the shape `test_circular_reference`
exercises. -/
def circularDoc : JSON :=
  .obj [("properties", .obj [("a", .obj [("$ref", .str "#/definitions/a")])]),
        ("definitions", .obj [("a", .obj [("type", .str "object"),
          ("properties", .obj [("self", .obj [("$ref", .str "#/definitions/a")])])])])]

/-- The canonical map of `circularDoc`: the cyclic edge materializes as a
back-reference whose target pointer is a key of the map. -/
def circularMap : SMap :=
  [("#", .obj [("properties", .obj [("a", refObj "#/definitions/a")]),
               ("definitions", .obj [("a", .obj [("type", .str "object"),
                 ("properties", .obj [("self", .obj [("$ref", .str "#/definitions/a")])])])])]),
   ("#/definitions/a", .obj [("type", .str "object"),
      ("properties", .obj [("self", refObj "#/definitions/a")])])]

/-- A document whose `definitions` node is a bare primitive, the shape of
`test_walk_ref_to_primitive_type`. -/
def primTargetDoc : JSON :=
  .obj [("definitions", .obj [("type", .str "integer")])]

/-- A document with two distinct references to the same definition, for
the deduplication property. -/
def dedupDoc : JSON :=
  .obj [("properties", .obj [("north", .obj [("$ref", .str "#/definitions/coordinate")]),
                             ("south", .obj [("$ref", .str "#/definitions/coordinate")])]),
        ("definitions", .obj [("coordinate", .obj [("type", .str "object"),
           ("properties", .obj [("lat", .obj [("type", .str "number")])])])])]

/-- The canonical map of `dedupDoc`: both references collapse to the same
single canonical entry for the shared definition. -/
def dedupMap : SMap :=
  [("#", .obj [("properties", .obj [("north", refObj "#/definitions/coordinate"),
                                    ("south", refObj "#/definitions/coordinate")]),
               ("definitions", .obj [("coordinate", .obj [("type", .str "object"),
                  ("properties", .obj [("lat", .obj [("type", .str "number")])])])])]),
   ("#/definitions/coordinate", .obj [("type", .str "object"),
      ("properties", .obj [("lat", .obj [("type", .str "number")])])])]

/-- A document with a dangling reference: its only property points to a
definition that does not exist. -/
def danglingDoc : JSON :=
  .obj [("properties", .obj [("a", .obj [("$ref", .str "#/definitions/missing")])])]

/-- The node of `test_walk_oneof_becomes_invalid`: a combinator branch
whose merge would put `patternProperties` next to `properties`. -/
def oneofInvalidNode : JSON :=
  .obj [("properties", .obj [("Foo", .obj [("type", .str "string")])]),
        ("anyOf", .arr [.obj [("patternProperties",
          .obj [("Test", .obj [("type", .str "string")])])]])]

/-- A combinator node whose earlier branch entry carries a key the later
branch does not mention, separating a shallow per-entry dict update from
wholesale replacement. -/
def residueNode : JSON :=
  .obj [("properties", .obj [("T", .obj [("type", .str "object"), ("extra", .bool true)])]),
        ("anyOf", .arr [.obj [("properties", .obj [("T", .obj [("type", .str "integer")])])]])]

/-- The claim's own merge-precedence example: two `allOf` branches both
declaring property `Foo`. -/
def fooPrecedenceNode : JSON :=
  .obj [("allOf", .arr [.obj [("properties", .obj [("Foo", .obj [("type", .str "object")])])],
                        .obj [("properties", .obj [("Foo", .obj [("type", .str "integer")])])]])]

/-- A failed CREATE progress event carrying InvalidRequest and a
message. -/
def invalidRequestEvent : ProgressEvent :=
  { status := .failed, resourceModel := none, errorCode := some .invalidRequest,
    message := "cannot set read-only property", callbackDelaySeconds := 0 }

/-- A success progress event returning the given model. -/
def successEvent (m : JSON) : ProgressEvent :=
  { status := .success, resourceModel := some m, errorCode := none,
    message := "", callbackDelaySeconds := 0 }

/-- A sample resource client: one readOnly primary identifier `Id`, a
writable `Name`. -/
def sampleClient : ResourceClient :=
  { createExample := .obj [("Name", .str "n")],
    updateExampleBase := .obj [("Name", .str "n2")],
    readOnlyPaths := [["Id"]],
    writeOnlyPaths := [],
    primaryIdentifierPaths := [["Id"]] }

/-- The created model the sample handler returns. -/
def sampleCreated : JSON := .obj [("Name", .str "n"), ("Id", .str "xyz")]

/-- The updated model the sample handler returns: same identifier. -/
def sampleUpdated : JSON := .obj [("Name", .str "n2"), ("Id", .str "xyz")]

/-- Transport transcript for the update flow: CREATE, UPDATE, DELETE
(fixture teardown), READ. -/
def sampleUpdateTransport : Transport :=
  ⟨[[successEvent sampleCreated], [successEvent sampleUpdated],
    [successEvent sampleCreated], [successEvent sampleUpdated]], []⟩

theorem run_zero (doc : JSON) (st : SMap) (j : Job) :
    run doc 0 st j = .error .outOfFuel := rfl

theorem run_succ (doc : JSON) (f : Nat) (st : SMap) (j : Job) :
    run doc (f + 1) st j = step doc (run doc f) st j := rfl

theorem lookup_setKey_self (kvs : List (String × JSON)) (k : String) (v : JSON) :
    lookupKey (setKey kvs k v) k = some v := by
  induction kvs with
  | nil => simp [setKey, lookupKey]
  | cons kv rest ih =>
      obtain ⟨k0, v0⟩ := kv
      by_cases h : k0 = k
      · simp [setKey, lookupKey, h]
      · simp [setKey, lookupKey, h, ih]

theorem lookup_setKey_other (kvs : List (String × JSON)) (k k' : String) (v : JSON)
    (h : k' ≠ k) : lookupKey (setKey kvs k v) k' = lookupKey kvs k' := by
  induction kvs with
  | nil => simp [setKey, lookupKey, Ne.symm h]
  | cons kv rest ih =>
      obtain ⟨k0, v0⟩ := kv
      by_cases h0 : k0 = k
      · subst h0
        simp [setKey, lookupKey, Ne.symm h]
      · by_cases h1 : k0 = k'
        · simp [setKey, lookupKey, h0, h1, h]
        · simp [setKey, lookupKey, h0, h1, ih]

theorem hasKey_setKey_self (kvs : List (String × JSON)) (k : String) (v : JSON) :
    hasKey (setKey kvs k v) k = true := by
  simp [hasKey, lookup_setKey_self]

theorem hasKey_setKey_of (kvs : List (String × JSON)) (k k' : String) (v : JSON)
    (h : hasKey kvs k' = true) : hasKey (setKey kvs k v) k' = true := by
  by_cases hk : k' = k
  · subst hk
    exact hasKey_setKey_self kvs k' v
  · simpa [hasKey, lookup_setKey_other kvs k k' v hk] using h

/-- C9: `get_overrides` is total over bad override inputs: a falsy
project root, a missing overrides.json, or an overrides document failing
schema validation each return the empty override `{"CREATE": {}}`
instead of raising; within a valid document, each individually invalid
JSON pointer key is skipped while every valid pointer is kept, decoded
to a path tuple. -/
theorem C9_get_overrides_total :
    (∀ exports, get_overrides .noRoot exports = empty_override) ∧
    (∀ exports, get_overrides .absent exports = empty_override) ∧
    (∀ doc exports, overridesValid (render_jinja doc exports) = false →
      get_overrides (.present doc) exports = empty_override) ∧
    (∀ ptr v rest path, fragment_decode "" ptr = .ok path →
      decode_pointer_items ((ptr, v) :: rest) = (path, v) :: decode_pointer_items rest) ∧
    (∀ ptr v rest e, fragment_decode "" ptr = .error e →
      decode_pointer_items ((ptr, v) :: rest) = decode_pointer_items rest) ∧
    get_overrides (.present (.obj [("CREATE", .obj [("#/foo/bar", .null)])])) [] =
      empty_override ∧
    get_overrides (.present (.obj [("CREATE", .obj [("/foo/bar", .obj [])])])) [] =
      [("CREATE", [(["foo", "bar"], .obj [])])] := by
  refine ⟨fun _ => rfl, fun _ => rfl, ?_, ?_, ?_, rfl, rfl⟩
  · intro doc exports h
    simp [get_overrides, h]
  · intro ptr v rest path h
    simp [decode_pointer_items, h]
  · intro ptr v rest e h
    simp [decode_pointer_items, h]

/-- Witness for C9 at concrete inputs. -/
theorem C9_get_overrides_total_witness :
    get_overrides (.present (.obj [("CREATE", .obj [("/x", .num 1)])])) [] =
      [("CREATE", [(["x"], .num 1)])] ∧
    decode_pointer_items [("/foo/bar", .null)] = [(["foo", "bar"], .null)] ∧
    decode_pointer_items [("#/foo/bar", .null)] = [] := by
  refine ⟨rfl, ?_, ?_⟩
  · have h := C9_get_overrides_total.2.2.2.1 "/foo/bar" .null []
      ["foo", "bar"] (by rfl)
    simpa [decode_pointer_items] using h
  · have h := C9_get_overrides_total.2.2.2.2.1 "#/foo/bar" .null []
      ("Expected prefix ") (by rfl)
    simpa [decode_pointer_items] using h

/-- C10: override Jinja substitution is all-or-nothing: a document with
at least one template variable that is not a CloudFormation export is
discarded entirely (the empty override is returned), including the
substitutions that do resolve; when every variable resolves, each is
replaced by its export value (and a variable-free document is returned
as parsed). -/
theorem C10_render_jinja_all_or_nothing :
    (∀ doc exports v, v ∈ jinjaVarsJ doc → lookupStr exports v = none →
      render_jinja doc exports = emptyOverrideJ) ∧
    (∀ doc exports, jinjaVarsJ doc = [] → render_jinja doc exports = doc) ∧
    (∀ doc exports, (∀ v ∈ jinjaVarsJ doc, (lookupStr exports v).isSome) →
      jinjaVarsJ doc ≠ [] → render_jinja doc exports = substJ exports doc) ∧
    get_overrides
      (.present (.obj [("CREATE", .obj [("/foo/bar", .str "\x7b\x7bTestExport\x7d\x7d"),
        ("/foo/bar2", .str "\x7b\x7bTestInvalidExport\x7d\x7d")])]))
      [("TestExport", "TestValue")] = empty_override ∧
    get_overrides
      (.present (.obj [("CREATE", .obj [("/foo/bar", .str "\x7b\x7bTestExport\x7d\x7d")])]))
      [("TestExport", "TestValue")] =
      [("CREATE", [(["foo", "bar"], .str "TestValue")])] := by
  refine ⟨?_, ?_, ?_, rfl, rfl⟩
  · intro doc exports v hv hnone
    have hne : (jinjaVarsJ doc).isEmpty = false := by
      cases h : jinjaVarsJ doc with
      | nil => rw [h] at hv; cases hv
      | cons a l => simp [List.isEmpty]
    have hinv : ((jinjaVarsJ doc).filter
        (fun v => (lookupStr exports v).isNone)).isEmpty = false := by
      have hmem : v ∈ (jinjaVarsJ doc).filter
          (fun v => (lookupStr exports v).isNone) := by
        simp [List.mem_filter, hv, hnone]
      cases h : (jinjaVarsJ doc).filter (fun v => (lookupStr exports v).isNone) with
      | nil => rw [h] at hmem; cases hmem
      | cons a l => simp [List.isEmpty]
    simp [render_jinja, hne, hinv]
  · intro doc exports h
    simp [render_jinja, h]
  · intro doc exports hall hne
    have hempty : (jinjaVarsJ doc).isEmpty = false := by
      cases h : jinjaVarsJ doc with
      | nil => exact absurd h hne
      | cons a l => simp [List.isEmpty]
    have hinv : ((jinjaVarsJ doc).filter
        (fun v => (lookupStr exports v).isNone)).isEmpty = true := by
      rw [List.isEmpty_iff]
      rw [List.filter_eq_nil_iff]
      intro v hv
      have := hall v hv
      simp [Option.isNone]
      cases hh : lookupStr exports v with
      | none => rw [hh] at this; cases this
      | some w => simp
    simp [render_jinja, hempty, hinv]

theorem pathSettable_emptyObj (rest : List String) :
    pathSettable (.obj []) rest = true := by
  cases rest <;> simp [pathSettable, lookupKey]

theorem get_set_path (p : List String) (j v : JSON)
    (h : pathSettable j p = true) : getAtPath (setAtPath j p v) p = some v := by
  induction p generalizing j with
  | nil => simp [setAtPath, getAtPath]
  | cons ph pt ih =>
      cases j with
      | obj kvs =>
          simp only [setAtPath, getAtPath]
          rw [lookup_setKey_self]
          cases hl : lookupKey kvs ph with
          | some w =>
              simp only [hl, Option.getD]
              apply ih
              simpa [pathSettable, hl] using h
          | none =>
              simp only [hl, Option.getD]
              exact ih _ (pathSettable_emptyObj pt)
      | null => simp [pathSettable] at h
      | bool b => simp [pathSettable] at h
      | num n => simp [pathSettable] at h
      | str s => simp [pathSettable] at h
      | arr xs => simp [pathSettable] at h

theorem popCall_calls (t : Transport) (a : Action) (m : JSON) :
    (popCall t a m).2.calls = t.calls ++ [(a, m)] := by
  obtain ⟨q, cs⟩ := t
  cases q <;> simp [popCall]

theorem call_and_assert_transport (t : Transport) (a : Action)
    (e : OperationStatus) (m : JSON) :
    (call_and_assert t a e m).2 = (popCall t a m).2 := by
  simp only [call_and_assert]
  repeat' split
  all_goals rfl

theorem call_transport (t : Transport) (a : Action) (m : JSON) :
    (call t a m).2 = (popCall t a m).2 := rfl

theorem cwim_transport (c : ResourceClient) (t : Transport) :
    (create_with_invalid_model c t).2 =
      (popCall (popCall t .create (generate_invalid_create_example c)).2 .delete
        (generate_invalid_create_example c)).2 := by
  simp only [create_with_invalid_model]
  rcases hca : call_and_assert t .create .failed (generate_invalid_create_example c)
    with ⟨r, t1⟩
  have ht1 : t1 = (popCall t .create (generate_invalid_create_example c)).2 := by
    have := call_and_assert_transport t .create .failed
      (generate_invalid_create_example c)
    rw [hca] at this
    exact this
  cases r with
  | error e => simp [hca, call_transport, ht1]
  | ok v =>
      obtain ⟨st, resp, ec⟩ := v
      by_cases hm : resp.message = ""
      · simp [hca, hm, call_transport, ht1]
      · cases ec with
        | some code => simp [hca, hm, call_transport, ht1]
        | none => simp [hca, hm, call_transport, ht1]

/-- C5: when the schema declares at least one readOnly property path,
the invalid-create scenario builds a model that deliberately sets a
value at a readOnly path; the scenario passes exactly when the CREATE
invocation terminates FAILED with errorCode InvalidRequest and a
non-empty message; and the best-effort DELETE is issued on every exit
path, the failing assertions included (the recorded call list always
ends with the DELETE of the invalid model). -/
theorem C5_invalid_create_failed_invalid_request :
    (∀ c p ps, c.readOnlyPaths = p :: ps → pathSettable c.createExample p = true →
      getAtPath (generate_invalid_create_example c) p = some invalidReadOnlyValue) ∧
    (∀ c t p ps, c.readOnlyPaths = p :: ps →
      (contract_invalid_create c t).2.calls =
        t.calls ++ [(.create, generate_invalid_create_example c),
                    (.delete, generate_invalid_create_example c)]) ∧
    (∀ c p ps events qrest calls0, c.readOnlyPaths = p :: ps →
      ((contract_invalid_create c ⟨events :: qrest, calls0⟩).1 = .passed ↔
        ∃ ev, firstTerminal events = some ev ∧ ev.status = .failed ∧
          ev.errorCode = some .invalidRequest ∧ ev.message ≠ "")) := by
  refine ⟨?_, ?_, ?_⟩
  · intro c p ps h hset
    simp only [generate_invalid_create_example, h]
    exact get_set_path p c.createExample invalidReadOnlyValue hset
  · intro c t p ps h
    rcases he : create_with_invalid_model c t with ⟨r, t1⟩
    have h2 := cwim_transport c t
    rw [he] at h2
    simp only [contract_invalid_create, h, he, h2, popCall_calls]
    simp
  · intro c p ps events qrest calls0 h
    simp only [contract_invalid_create, h]
    rcases hft : firstTerminal events with _ | ev
    · simp [create_with_invalid_model, call_and_assert, popCall, hft, failed_event, call]
    · by_cases hst : ev.status = .failed
      · cases hec : ev.errorCode with
        | none =>
            simp [create_with_invalid_model, call_and_assert, popCall, hft, hst, hec,
              failed_event, call]
        | some code =>
            by_cases hmsg : ev.message = ""
            · simp [create_with_invalid_model, call_and_assert, popCall, hft, hst, hec,
                failed_event, call, hmsg]
            · by_cases hcode : code = .invalidRequest
              · simp [create_with_invalid_model, call_and_assert, popCall, hft, hst, hec,
                  failed_event, call, hmsg, hcode]
              · simp [create_with_invalid_model, call_and_assert, popCall, hft, hst, hec,
                  failed_event, call, hmsg, hcode]
      · simp [create_with_invalid_model, call_and_assert, popCall, hft, hst,
          failed_event, call]

/-- Witness for C5 at the sample client and a conforming handler. -/
theorem C5_invalid_create_failed_invalid_request_witness :
    getAtPath (generate_invalid_create_example sampleClient) ["Id"] =
      some invalidReadOnlyValue ∧
    (contract_invalid_create sampleClient ⟨[[invalidRequestEvent]], []⟩).2.calls =
      [(.create, generate_invalid_create_example sampleClient),
       (.delete, generate_invalid_create_example sampleClient)] ∧
    (contract_invalid_create sampleClient ⟨[[invalidRequestEvent]], []⟩).1 = .passed := by
  refine ⟨?_, ?_, ?_⟩
  · exact C5_invalid_create_failed_invalid_request.1 sampleClient ["Id"] []
      (by rfl) (by rfl)
  · have h := C5_invalid_create_failed_invalid_request.2.1 sampleClient
      ⟨[[invalidRequestEvent]], []⟩ ["Id"] [] (by rfl)
    simpa using h
  · have h := (C5_invalid_create_failed_invalid_request.2.2 sampleClient ["Id"] []
      [invalidRequestEvent] [] [] (by rfl)).mpr
      ⟨invalidRequestEvent, by rfl, by rfl, by rfl, by decide⟩
    exact h

theorem get_set_head_ne (j v : JSON) (ph : String) (pt : List String)
    (qh : String) (qt : List String) (hne : ph ≠ qh) :
    getAtPath (setAtPath j (qh :: qt) v) (ph :: pt) = getAtPath j (ph :: pt) := by
  cases j with
  | obj kvs =>
      simp only [setAtPath, getAtPath]
      rw [lookup_setKey_other kvs qh ph _ hne]
  | null => rfl
  | bool b => rfl
  | num n => rfl
  | str s => rfl
  | arr xs => rfl

theorem settable_set_head_ne (j v : JSON) (ph : String) (pt : List String)
    (qh : String) (qt : List String) (hne : ph ≠ qh) :
    pathSettable (setAtPath j (qh :: qt) v) (ph :: pt) = pathSettable j (ph :: pt) := by
  cases j with
  | obj kvs =>
      simp only [setAtPath, pathSettable]
      rw [lookup_setKey_other kvs qh ph _ hne]
  | null => rfl
  | bool b => rfl
  | num n => rfl
  | str s => rfl
  | arr xs => rfl

/-- One step of the identifier-copy fold in `generate_update_example`. -/
def copyStep (existing : JSON) (m : JSON) (q : List String) : JSON :=
  match getAtPath existing q with
  | some v => setAtPath m q v
  | none => m

theorem generate_update_example_eq_fold (c : ResourceClient) (existing : JSON) :
    generate_update_example c existing =
      c.primaryIdentifierPaths.foldl (copyStep existing) c.updateExampleBase := rfl

theorem fold_no_touch (existing : JSON) (qs : List (List String)) (ph : String)
    (pt : List String) :
    ∀ m, (∀ q ∈ qs, q ≠ [] ∧ q.head? ≠ some ph) →
      getAtPath (qs.foldl (copyStep existing) m) (ph :: pt) = getAtPath m (ph :: pt) := by
  induction qs with
  | nil => intro m _; rfl
  | cons q rest ih =>
      intro m hq
      have hstep : getAtPath (copyStep existing m q) (ph :: pt) = getAtPath m (ph :: pt) := by
        obtain ⟨hne, hhd⟩ := hq q (by simp)
        cases q with
        | nil => exact absurd rfl hne
        | cons qh qt =>
            have h' : qh ≠ ph := by simpa using hhd
            rcases hg : getAtPath existing (qh :: qt) with _ | v
            · simp only [copyStep, hg]
            · simp only [copyStep, hg]
              exact get_set_head_ne m v ph pt qh qt h'.symm
      calc getAtPath ((q :: rest).foldl (copyStep existing) m) (ph :: pt)
          = getAtPath (rest.foldl (copyStep existing) (copyStep existing m q)) (ph :: pt) := rfl
        _ = getAtPath (copyStep existing m q) (ph :: pt) :=
            ih (copyStep existing m q) (fun q' hq' => hq q' (by simp [hq']))
        _ = getAtPath m (ph :: pt) := hstep

/-- C6: the primary identifier is invariant across update:
`generate_update_example(existingModel)` copies the primary-identifier
values verbatim from the existing model (for identifier paths that are
nonempty, pairwise distinct at their first segment, present in the
existing model, and settable in the update base), and whenever the
update fixture succeeds and `contract_update_read_success` passes,
`is_primary_identifier_equal` holds between the created and the updated
model. -/
theorem C6_primary_identifier_invariant :
    (∀ (c : ResourceClient) (existing : JSON) (p : List String),
      p ∈ c.primaryIdentifierPaths →
      (∀ q ∈ c.primaryIdentifierPaths, q ≠ []) →
      (c.primaryIdentifierPaths.map List.head?).Nodup →
      pathSettable c.updateExampleBase p = true →
      (getAtPath existing p).isSome →
      getAtPath (generate_update_example c existing) p = getAtPath existing p) ∧
    (∀ (c : ResourceClient) (t0 : Transport) cr created ur updated t1,
      updated_resource c t0 = (.ok (cr, created, ur, updated), t1) →
      (contract_update_read_success c t0).1 = .passed →
      is_primary_identifier_equal c.primaryIdentifierPaths created updated = true) := by
  constructor
  · intro c existing p hp hne hnd hset hsome
    have hpne : p ≠ [] := hne p hp
    rw [generate_update_example_eq_fold]
    revert hp hne hnd hset
    generalize c.updateExampleBase = base
    generalize c.primaryIdentifierPaths = paths
    intro hp hne hnd hset
    cases p with
    | nil => exact absurd rfl hpne
    | cons ph pt =>
        induction paths generalizing base with
        | nil => cases hp
        | cons q rest ih =>
            rcases List.mem_cons.mp hp with hpq | hpr
            · subst hpq
              obtain ⟨v, hv⟩ := Option.isSome_iff_exists.mp hsome
              have hrest : ∀ q' ∈ rest, q' ≠ [] ∧ q'.head? ≠ some ph := by
                intro q' hq'
                refine ⟨hne q' (by simp [hq']), ?_⟩
                have hn := hnd
                simp only [List.map_cons, List.nodup_cons, List.head?_cons] at hn
                intro heq
                have hmem : some ph ∈ rest.map List.head? := by
                  have := List.mem_map_of_mem List.head? hq'
                  rwa [heq] at this
                exact hn.1 hmem
              rw [List.foldl_cons]
              rw [fold_no_touch existing rest ph pt (copyStep existing base (ph :: pt)) hrest]
              simp only [copyStep, hv]
              rw [get_set_path (ph :: pt) base v hset]
            · have hq : q ≠ [] := hne q (by simp)
              obtain ⟨qh, qt, rfl⟩ : ∃ qh qt, q = qh :: qt := by
                cases q with
                | nil => exact absurd rfl hq
                | cons a b => exact ⟨a, b, rfl⟩
              rw [List.foldl_cons]
              have hheads : ph ≠ qh := by
                have hn := hnd
                simp only [List.map_cons, List.nodup_cons, List.head?_cons] at hn
                intro heq
                refine hn.1 ?_
                have hm : some ph ∈ rest.map List.head? :=
                  List.mem_map_of_mem List.head? hpr
                rwa [heq] at hm
              have hset2 : pathSettable (copyStep existing base (qh :: qt)) (ph :: pt) = true := by
                rcases hg : getAtPath existing (qh :: qt) with _ | v
                · simpa only [copyStep, hg] using hset
                · simp only [copyStep, hg]
                  rw [settable_set_head_ne base v ph pt qh qt hheads]
                  exact hset
              have hnd2 : (rest.map List.head?).Nodup := by
                have hn := hnd
                simp only [List.map_cons, List.nodup_cons] at hn
                exact hn.2
              exact ih (copyStep existing base (qh :: qt))
                (fun q' hq' => hne q' (by simp [hq'])) hnd2 hpr hset2
  · intro c t0 cr created ur updated t1 h1 h2
    by_cases hid : is_primary_identifier_equal c.primaryIdentifierPaths created updated = true
    · exact hid
    · exfalso
      simp only [contract_update_read_success, h1] at h2
      rw [if_neg hid] at h2
      cases h2

/-- Witness for C6 at the sample client and handler transcript. -/
theorem C6_primary_identifier_invariant_witness :
    getAtPath (generate_update_example sampleClient sampleCreated) ["Id"] =
      getAtPath sampleCreated ["Id"] ∧
    is_primary_identifier_equal sampleClient.primaryIdentifierPaths
      sampleCreated sampleUpdated = true := by
  constructor
  · exact C6_primary_identifier_invariant.1 sampleClient sampleCreated ["Id"]
      (by decide) (by decide) (by decide) (by rfl) (by rfl)
  · exact C6_primary_identifier_invariant.2 sampleClient sampleUpdateTransport
      (.obj [("Name", .str "n")]) sampleCreated
      (.obj [("Name", .str "n2"), ("Id", .str "xyz")]) sampleUpdated
      ⟨[[successEvent sampleUpdated]], [(.create, .obj [("Name", .str "n")]),
        (.update, .obj [("Name", .str "n2"), ("Id", .str "xyz")]),
        (.delete, sampleCreated)]⟩
      (by rfl) (by rfl)

mutual

theorem beqJ_refl : ∀ j, beqJ j j = true
  | .null => rfl
  | .bool b => by simp [beqJ]
  | .num n => by simp [beqJ]
  | .str s => by simp [beqJ]
  | .arr xs => by simp [beqJ, beqL_refl xs]
  | .obj kvs => by simp [beqJ, beqO_refl kvs]

theorem beqL_refl : ∀ xs, beqL xs xs = true
  | [] => rfl
  | x :: xs => by simp [beqL, beqJ_refl x, beqL_refl xs]

theorem beqO_refl : ∀ kvs, beqO kvs kvs = true
  | [] => rfl
  | (k, v) :: rest => by simp [beqO, beqJ_refl v, beqO_refl rest]

end

theorem ne_of_beqJ_false (a b : JSON) (h : beqJ a b = false) : a ≠ b := by
  intro he
  rw [he, beqJ_refl] at h
  cases h

/-- Memoization and cycle breaking: a pointer already present in the map
(a completed entry or a placeholder alike) immediately yields the
back-reference, and the walk does not recurse. -/
theorem walk_seen (doc : JSON) (f : Nat) (st : SMap) (p : String) (n : JSON)
    (h : hasKey st p = true) : walk doc (f + 1) st p n = .ok (st, refObj p) := by
  simp [walk, run, step, h]

/-- A reference whose target pointer is already in the map collapses to
the back-reference without resolving or walking anything. -/
theorem ref_seen (doc : JSON) (f : Nat) (st : SMap) (target : String)
    (h : hasKey st target = true) :
    collapse_ref_type doc (f + 1) st target = .ok (st, refObj target) := by
  simp [collapse_ref_type, run, step, h]

/-- A successful object collapse of a `properties`-bearing node registers
the node under its own pointer and returns the back-reference. -/
theorem object_with_properties_registers (doc : JSON) (f : Nat) (st : SMap)
    (key : String) (node : JSON) (st2 : SMap) (r : JSON)
    (hprops : hasKey (objEntries node) "properties" = true)
    (h : collapse_object_type doc (f + 1) st key node = .ok (st2, r)) :
    r = refObj key ∧ hasKey st2 key = true := by
  obtain ⟨props, hp⟩ := Option.isSome_iff_exists.mp (by simpa [hasKey] using hprops)
  by_cases hap : isSchemaValued (lookupKey (objEntries node) "additionalProperties") = true
  · simp [collapse_object_type, run, step, hap] at h
  · by_cases hpat : hasKey (objEntries node) "patternProperties" = true
    · simp [collapse_object_type, run, step, hap, hp, hpat] at h
    · rcases he : run doc f (setKey st key .null) (.entries key false (objEntries props))
        with e | ⟨st1, rr⟩
      · simp [collapse_object_type, run, step, hap, hp, hpat, he] at h
      · simp only [collapse_object_type, run, step, Bool.not_eq_true] at h
        rw [if_neg (by simpa using hap)] at h
        rw [hp] at h
        simp only [hpat] at h
        rw [he] at h
        injection h with hpair
        have h1 : st2 = setKey st1 key (setObjKey node "properties" (.obj (objEntries rr))) :=
          (congrArg Prod.fst hpair).symm
        have h2 : r = refObj key := (congrArg Prod.snd hpair).symm
        subst h1
        subst h2
        exact ⟨rfl, hasKey_setKey_self st1 key _⟩

/-- C7: normalization rejects unsupported shapes with a ConstraintError
naming the offending pointer: a node declaring both `properties` and
`patternProperties`, a node with a schema-valued `additionalProperties`,
an array node with a schema-valued `additionalItems` (each at any fuel
and state), and a combinator merge that cannot be unambiguously merged
(the `anyOf` branch of `test_walk_oneof_becomes_invalid`, whose merge
puts `patternProperties` next to `properties`). -/
theorem C7_constraint_rejection :
    (∀ doc f st key node, hasKey (objEntries node) "properties" = true →
      hasKey (objEntries node) "patternProperties" = true →
      ∃ msg, collapse_object_type doc (f + 1) st key node = .error (.constraint key msg)) ∧
    (∀ doc f st key node,
      isSchemaValued (lookupKey (objEntries node) "additionalProperties") = true →
      collapse_object_type doc (f + 1) st key node = .error (.constraint key
        ("Object at '" ++ key ++ "' has schema-valued additionalProperties, which is not supported"))) ∧
    (∀ doc f st key node,
      isSchemaValued (lookupKey (objEntries node) "additionalItems") = true →
      collapse_array_type doc (f + 1) st key node = .error (.constraint key
        ("Object at '" ++ key ++ "' has schema-valued additionalItems, which is not supported"))) ∧
    walk (.obj []) 10 [] "#/properties/Foo" oneofInvalidNode =
      .error (.constraint "#/properties/Foo"
        "Object at '#/properties/Foo' has mutually exclusive 'properties' and 'patternProperties'") := by
  refine ⟨?_, ?_, ?_, rfl⟩
  · intro doc f st key node hprops hpat
    obtain ⟨props, hp⟩ := Option.isSome_iff_exists.mp (by simpa [hasKey] using hprops)
    by_cases hap : isSchemaValued (lookupKey (objEntries node) "additionalProperties") = true
    · exact ⟨"Object at '" ++ key ++ "' has schema-valued additionalProperties, which is not supported",
        by simp [collapse_object_type, run, step, hap]⟩
    · refine ⟨"Object at '" ++ key ++ "' has mutually exclusive 'properties' and 'patternProperties'", ?_⟩
      simp only [collapse_object_type, run, step]
      rw [if_neg (by simpa using hap), hp]
      simp [hpat]
  · intro doc f st key node hap
    simp [collapse_object_type, run, step, hap]
  · intro doc f st key node hai
    simp [collapse_array_type, run, step, hai]

/-- Witness for C7 at concrete nodes. -/
theorem C7_constraint_rejection_witness :
    (∃ msg, collapse_object_type (.obj []) 5 [] "OWSAZD"
      (.obj [("properties", .obj [("foo", .obj [("type", .str "string")])]),
             ("patternProperties", .obj [("type", .str "string")])]) =
      .error (.constraint "OWSAZD" msg)) ∧
    collapse_object_type (.obj []) 5 [] "OWSAZD"
      (.obj [("additionalProperties", .obj [("type", .str "string")])]) =
      .error (.constraint "OWSAZD"
        "Object at 'OWSAZD' has schema-valued additionalProperties, which is not supported") ∧
    collapse_array_type (.obj []) 5 [] "OWSAZD"
      (.obj [("additionalItems", .obj [("type", .str "string")])]) =
      .error (.constraint "OWSAZD"
        "Object at 'OWSAZD' has schema-valued additionalItems, which is not supported") := by
  refine ⟨?_, ?_, ?_⟩
  · exact C7_constraint_rejection.1 (.obj []) 4 [] "OWSAZD" _ (by rfl) (by rfl)
  · exact C7_constraint_rejection.2.1 (.obj []) 4 [] "OWSAZD" _ (by rfl)
  · exact C7_constraint_rejection.2.2.1 (.obj []) 4 [] "OWSAZD" _ (by rfl)

/-- C8: an unresolvable `$ref` fails with a NormalizationError naming the
unresolved pointer (generally whenever any decoded path segment is
missing from the root document, and concretely for the test's
`#/this/is/not/a/path`); the failure propagates out of the reference
collapse, and normalization of a document with a dangling reference is
fatal as a whole: `collapse_and_resolve_schema` returns the error and no
partial canonical map. -/
theorem C8_normalization_error_fatal :
    (∀ doc ref parts, fragment_decode "#" ref = .ok parts →
      resolvePath doc parts = none →
      find_subschema_by_ref doc ref = .error (.normalization ref)) ∧
    (∀ doc f st target e, hasKey st target = false →
      find_subschema_by_ref doc target = .error e →
      collapse_ref_type doc (f + 1) st target = .error e) ∧
    find_subschema_by_ref dedupDoc "#/this/is/not/a/path" =
      .error (.normalization "#/this/is/not/a/path") ∧
    collapse_and_resolve_schema danglingDoc 10 =
      .error (.normalization "#/definitions/missing") := by
  refine ⟨?_, ?_, rfl, rfl⟩
  · intro doc ref parts hd hr
    simp [find_subschema_by_ref, hd, hr]
  · intro doc f st target e hk hf
    simp [collapse_ref_type, run, step, hk, hf]

/-- Witness for C8 at concrete inputs. -/
theorem C8_normalization_error_fatal_witness :
    find_subschema_by_ref (.obj [("a", .num 1)]) "#/b" = .error (.normalization "#/b") ∧
    collapse_ref_type (.obj [("a", .num 1)]) 5 [] "#/b" = .error (.normalization "#/b") := by
  constructor
  · exact C8_normalization_error_fatal.1 (.obj [("a", .num 1)]) "#/b" ["b"]
      (by rfl) (by rfl)
  · exact C8_normalization_error_fatal.2.1 (.obj [("a", .num 1)]) 4 [] "#/b"
      (.normalization "#/b") (by rfl) (by rfl)

/-- C2 counterexample: for the node `{"$ref": "#/definitions"}` in a
document whose `definitions` is the primitive `{"type": "integer"}`
(the shape of `test_walk_ref_to_primitive_type`), the walk returns the
resolved primitive itself, not `{"$ref": "#/definitions"}`, and records
nothing: the map stays empty rather than gaining one canonical entry; so
the claim's universal "records the resolved node once under the target's
own canonical pointer and returns the back-reference at the call site"
is false for primitive targets. -/
theorem C2_counterexample_primitive_ref_inlined :
    walk primTargetDoc 10 [] "" (.obj [("$ref", .str "#/definitions")]) =
      .ok ([], .obj [("type", .str "integer")]) ∧
    JSON.obj [("type", .str "integer")] ≠ refObj "#/definitions" := by
  exact ⟨rfl, ne_of_beqJ_false _ _ rfl⟩

/-- C2 amended: a reference whose target is already a key of the map
collapses to the back-reference without re-walking (so N references to
one definition share one canonical entry); a successful object collapse
of a `properties`-bearing target registers it once under its own pointer
and returns the back-reference; a reference to a primitive target
returns the resolved node inline with no map entry; and concretely, a
document with two distinct references to the same definition normalizes
to a map holding exactly one canonical entry for that definition, both
call sites holding the same back-reference. -/
theorem C2_amended_dedup_to_canonical_entry :
    (∀ doc f st target, hasKey st target = true →
      collapse_ref_type doc (f + 1) st target = .ok (st, refObj target)) ∧
    (∀ doc f st key node st2 r, hasKey (objEntries node) "properties" = true →
      collapse_object_type doc (f + 1) st key node = .ok (st2, r) →
      r = refObj key ∧ hasKey st2 key = true) ∧
    collapse_and_resolve_schema dedupDoc 30 = .ok dedupMap ∧
    (dedupMap.filter (fun kv => kv.1 = "#/definitions/coordinate")).length = 1 ∧
    getAtPath (.obj dedupMap) ["#", "properties", "north"] =
      some (refObj "#/definitions/coordinate") ∧
    getAtPath (.obj dedupMap) ["#", "properties", "south"] =
      some (refObj "#/definitions/coordinate") := by
  exact ⟨fun doc f st target h => ref_seen doc f st target h,
    fun doc f st key node st2 r h1 h2 =>
      object_with_properties_registers doc f st key node st2 r h1 h2,
    rfl, rfl, rfl, rfl⟩

/-- Witness for C2's amended theorem at concrete inputs. -/
theorem C2_amended_dedup_witness :
    collapse_ref_type dedupDoc 5 [("#/definitions/coordinate", .null)]
      "#/definitions/coordinate" =
      .ok ([("#/definitions/coordinate", .null)], refObj "#/definitions/coordinate") ∧
    (∃ st2 r, collapse_object_type dedupDoc 5 [] "#/definitions/coordinate"
        (.obj [("type", .str "object"),
               ("properties", .obj [("lat", .obj [("type", .str "number")])])]) =
        .ok (st2, r) ∧ r = refObj "#/definitions/coordinate" ∧
        hasKey st2 "#/definitions/coordinate" = true) := by
  constructor
  · exact C2_amended_dedup_to_canonical_entry.1 dedupDoc 4
      [("#/definitions/coordinate", .null)] "#/definitions/coordinate" (by rfl)
  · refine ⟨[("#/definitions/coordinate", .obj [("type", .str "object"),
      ("properties", .obj [("lat", .obj [("type", .str "number")])])])],
      refObj "#/definitions/coordinate", by rfl, ?_⟩
    have h := C2_amended_dedup_to_canonical_entry.2.1 dedupDoc 4 []
      "#/definitions/coordinate"
      (.obj [("type", .str "object"),
             ("properties", .obj [("lat", .obj [("type", .str "number")])])])
      [("#/definitions/coordinate", .obj [("type", .str "object"),
        ("properties", .obj [("lat", .obj [("type", .str "number")])])])]
      (refObj "#/definitions/coordinate") (by rfl) (by rfl)
    exact h

theorem lookup_append_of_none (l1 l2 : List (String × JSON)) (k : String)
    (h : lookupKey l1 k = none) : lookupKey (l1 ++ l2) k = lookupKey l2 k := by
  induction l1 with
  | nil => rfl
  | cons kv rest ih =>
      obtain ⟨k0, v0⟩ := kv
      by_cases h0 : k0 = k
      · simp only [lookupKey] at h
        rw [if_pos h0] at h
        cases h
      · simp only [List.cons_append, lookupKey] at h ⊢
        rw [if_neg h0] at h ⊢
        exact ih h

theorem dictUpdate_lookup_self (b : List (String × JSON)) (k : String) (v : JSON) :
    lookupKey (dictUpdate b [(k, v)]) k = some v := by
  simp [dictUpdate, lookup_setKey_self]

theorem dictUpdate_lookup_other (b : List (String × JSON)) (k k' : String) (v : JSON)
    (h : k' ≠ k) : lookupKey (dictUpdate b [(k, v)]) k' = lookupKey b k' := by
  simp [dictUpdate, lookup_setKey_other _ _ _ _ h]

theorem mergePropMaps_single_existing (base : List (String × JSON)) (k : String)
    (v old : JSON) (h : lookupKey base k = some old) :
    lookupKey (mergePropMaps base [(k, v)]) k = some (mergeEntry old v) := by
  simp [mergePropMaps, h, lookup_setKey_self]

theorem mergePropMaps_single_new (base : List (String × JSON)) (k : String) (v : JSON)
    (h : lookupKey base k = none) :
    lookupKey (mergePropMaps base [(k, v)]) k = some v := by
  simp only [mergePropMaps, List.foldl_cons, List.foldl_nil, h]
  rw [lookup_append_of_none base [(k, v)] k h]
  simp [lookupKey]

/-- C3 counterexample: merging the `anyOf` branch
`{"properties": {"T": {"type": "integer"}}}` over a node whose
`properties.T` is `{"type": "object", "extra": true}` yields
`{"type": "integer", "extra": true}` — the earlier entry's `extra` key
survives — so a later branch's entry does NOT fully replace the earlier
branch's entry for the same property name; it is dict-updated over it
(as the repository's own `test_squash_array_keys_pattern_properties`
requires). -/
theorem C3_counterexample_entry_not_replaced :
    squash_array_keys "#/properties/Foo" residueNode =
      .obj [("properties", .obj [("T",
        .obj [("type", .str "integer"), ("extra", .bool true)])])] ∧
    JSON.obj [("type", .str "integer"), ("extra", .bool true)] ≠
      .obj [("type", .str "integer")] := by
  exact ⟨rfl, ne_of_beqJ_false _ _ rfl⟩

/-- C3 amended: combinator merging is shallow and key-by-key with the
later branch winning per key: within the merged `properties` map a later
branch's entry for a property name is applied as a one-level dict update
over the earlier entry (keys of the later entry overwrite, keys only in
the earlier entry survive, and nested values are replaced wholesale with
no recursive merge); `required` arrays concatenate with duplicates
removed; scalar keys are overwritten by the later branch; combinator
keys are absent from the result; and the claim's own example still
holds: merging the two `allOf` branches over `Foo` yields
`Foo.type == "integer"`. -/
theorem C3_amended_shallow_merge_update :
    (∀ b k v, lookupKey (dictUpdate b [(k, v)]) k = some v) ∧
    (∀ b k k' v, k' ≠ k → lookupKey (dictUpdate b [(k, v)]) k' = lookupKey b k') ∧
    (∀ base k v old, lookupKey base k = some old →
      lookupKey (mergePropMaps base [(k, v)]) k = some (mergeEntry old v)) ∧
    (∀ base k v, lookupKey base k = none →
      lookupKey (mergePropMaps base [(k, v)]) k = some v) ∧
    squash_array_keys "#" fooPrecedenceNode =
      .obj [("properties", .obj [("Foo", .obj [("type", .str "integer")])])] ∧
    squash_array_keys "#" (.obj [("required", .arr [.str "A", .str "B"]),
        ("allOf", .arr [.obj [("required", .arr [.str "B", .str "C"])]])]) =
      .obj [("required", .arr [.str "A", .str "B", .str "C"])] ∧
    squash_array_keys "#" (.obj [("type", .str "object"),
        ("anyOf", .arr [.obj [("type", .str "string")]])]) =
      .obj [("type", .str "string")] ∧
    lookupKey (objEntries (squash_array_keys "#" fooPrecedenceNode)) "allOf" = none ∧
    squash_array_keys "#/properties/Foo"
      (.obj [("patternProperties", .obj [("test", .obj [("$ref", .str "#/definitions")])]),
             ("anyOf", .arr [.obj [("patternProperties",
                .obj [("test", .obj [("type", .str "object")])])],
              .obj [("required", .arr [.str "Foo"])]])]) =
      .obj [("patternProperties", .obj [("test",
        .obj [("$ref", .str "#/definitions"), ("type", .str "object")])]),
        ("required", .arr [.str "Foo"])] := by
  exact ⟨dictUpdate_lookup_self, fun b k k' v h => dictUpdate_lookup_other b k k' v h,
    mergePropMaps_single_existing, mergePropMaps_single_new, rfl, rfl, rfl, rfl, rfl⟩

/-- Witness for C3's amended theorem at concrete inputs. -/
theorem C3_amended_shallow_merge_update_witness :
    lookupKey (dictUpdate [("type", JSON.str "object")] [("type", .str "integer")])
      "type" = some (.str "integer") ∧
    lookupKey (dictUpdate [("extra", JSON.bool true)] [("type", .str "integer")])
      "extra" = some (.bool true) ∧
    lookupKey (mergePropMaps [("T", JSON.obj [("type", .str "object")])]
      [("T", .obj [("type", .str "integer")])]) "T" =
      some (.obj [("type", .str "integer")]) ∧
    lookupKey (mergePropMaps [] [("T", JSON.obj [("type", .str "integer")])]) "T" =
      some (.obj [("type", .str "integer")]) := by
  refine ⟨?_, ?_, ?_, ?_⟩
  · exact C3_amended_shallow_merge_update.1 [("type", JSON.str "object")] "type"
      (.str "integer")
  · exact C3_amended_shallow_merge_update.2.1 [("extra", JSON.bool true)] "type"
      "extra" (.str "integer") (by decide)
  · have h := C3_amended_shallow_merge_update.2.2.1
      [("T", JSON.obj [("type", .str "object")])] "T" (.obj [("type", .str "integer")])
      (.obj [("type", .str "object")]) (by rfl)
    exact h
  · exact C3_amended_shallow_merge_update.2.2.2.1 [] "T"
      (.obj [("type", .str "integer")]) (by rfl)

theorem selfref_walk_diverges :
    ∀ f, run selfRefDoc f [] (.walk "#" selfRefDoc) = .error .outOfFuel := by
  intro f
  induction f using Nat.strong_induction_on with
  | _ f ih =>
    match f with
    | 0 => rfl
    | 1 => rfl
    | g + 2 => exact ih g (by omega)

/-- C1 counterexample: the claim's universal termination fails. For the
finite schema document `{"$ref": "#"}` — a reference cycle that passes
through no `properties`-bearing node, so no placeholder is ever
inserted — the walk re-resolves the same pointer forever:
`collapse_and_resolve_schema` exhausts every fuel bound, i.e. the
unbounded Python recursion never terminates on this document. -/
theorem C1_counterexample_pure_ref_cycle_diverges :
    ∃ doc, ∀ fuel, collapse_and_resolve_schema doc fuel = .error .outOfFuel := by
  refine ⟨selfRefDoc, fun f => ?_⟩
  have h := selfref_walk_diverges f
  simp [collapse_and_resolve_schema, h]

theorem run_mono_keys (doc : JSON) :
    ∀ f st j st' r, run doc f st j = .ok (st', r) →
      ∀ k, hasKey st k = true → hasKey st' k = true := by
  intro f
  induction f with
  | zero => intro st j st' r h; simp [run] at h
  | succ f ih =>
      intro st j st' r h k hk
      rw [run_succ] at h
      cases j with
      | walk path node =>
          simp only [step] at h
          by_cases hs : hasKey st path = true
          · rw [if_pos hs] at h
            cases h
            exact hk
          · rw [if_neg hs] at h
            cases node with
            | obj kvs =>
                rcases hr : refTarget kvs with _ | target
                · simp only [hr] at h
                  rcases ht : typeKind (if hasCombinator kvs then
                      squash_array_keys path (.obj kvs) else .obj kvs) with _ | _ | _
                  · simp only [ht] at h
                    exact ih _ _ _ _ h k hk
                  · simp only [ht] at h
                    exact ih _ _ _ _ h k hk
                  · simp only [ht] at h
                    cases h; exact hk
                · simp only [hr] at h
                  exact ih _ _ _ _ h k hk
            | null => cases h; exact hk
            | bool b => cases h; exact hk
            | num n => cases h; exact hk
            | str s => cases h; exact hk
            | arr xs => cases h; exact hk
      | ref target =>
          simp only [step] at h
          by_cases hs : hasKey st target = true
          · rw [if_pos hs] at h; cases h; exact hk
          · rw [if_neg hs] at h
            split at h
            · cases h
            · exact ih _ _ _ _ h k hk
      | arrayT key node =>
          simp only [step] at h
          by_cases hai : isSchemaValued (lookupKey (objEntries node) "additionalItems") = true
          · rw [if_pos hai] at h; cases h
          · rw [if_neg hai] at h
            rcases hit : lookupKey (objEntries node) "items" with _ | items
            · simp only [hit] at h
              cases h; exact hk
            · simp only [hit] at h
              rcases hrw : run doc f st (.walk (key ++ "/items") items) with e | ⟨st1, r1⟩
              · simp only [hrw] at h; cases h
              · simp only [hrw] at h
                cases h
                exact ih _ _ _ _ hrw k hk
      | objectT key node =>
          simp only [step] at h
          by_cases hap : isSchemaValued (lookupKey (objEntries node) "additionalProperties") = true
          · rw [if_pos hap] at h; cases h
          · rw [if_neg hap] at h
            rcases hp : lookupKey (objEntries node) "properties" with _ | props
            · simp only [hp] at h
              rcases hpp : lookupKey (objEntries node) "patternProperties" with _ | pp
              · simp only [hpp] at h; cases h; exact hk
              · simp only [hpp] at h
                rcases hrw : run doc f st (.entries key true (objEntries pp)) with e | ⟨st1, rr⟩
                · simp only [hrw] at h; cases h
                · simp only [hrw] at h
                  cases h
                  exact ih _ _ _ _ hrw k hk
            · simp only [hp] at h
              by_cases hpat : hasKey (objEntries node) "patternProperties" = true
              · rw [if_pos hpat] at h; cases h
              · rw [if_neg hpat] at h
                rcases hrw : run doc f (setKey st key .null) (.entries key false (objEntries props))
                  with e | ⟨st1, rr⟩
                · simp only [hrw] at h; cases h
                · simp only [hrw] at h
                  cases h
                  exact hasKey_setKey_of st1 key k _
                    (ih _ _ _ _ hrw k (hasKey_setKey_of st key k .null hk))
      | entries base enc kvs =>
          cases kvs with
          | nil =>
              simp only [step] at h
              cases h; exact hk
          | cons kv rest =>
              obtain ⟨k0, v0⟩ := kv
              simp only [step] at h
              rcases hrw : run doc f st
                (.walk (if enc then base ++ "/patternProperties/" ++ percentEncode k0
                        else base ++ "/properties/" ++ k0) v0) with e | ⟨st1, r1⟩
              · simp only [hrw] at h; cases h
              · simp only [hrw] at h
                rcases hrw2 : run doc f st1 (.entries base enc rest) with e | ⟨st2, rs⟩
                · simp only [hrw2] at h; cases h
                · simp only [hrw2] at h
                  cases h
                  exact ih _ _ _ _ hrw2 k (ih _ _ _ _ hrw k hk)

theorem step_mono_ok (doc : JSON) (r1 r2 : SMap → Job → Except NormError (SMap × JSON))
    (hr : ∀ st j x, r1 st j = .ok x → r2 st j = .ok x) :
    ∀ st j x, step doc r1 st j = .ok x → step doc r2 st j = .ok x := by
  intro st j x h
  cases j with
  | walk path node =>
      simp only [step] at h ⊢
      by_cases hs : hasKey st path = true
      · rw [if_pos hs] at h ⊢; exact h
      · rw [if_neg hs] at h ⊢
        cases node with
        | obj kvs =>
            rcases hrt : refTarget kvs with _ | target
            · simp only [hrt] at h ⊢
              rcases ht : typeKind (if hasCombinator kvs then
                  squash_array_keys path (.obj kvs) else .obj kvs) with _ | _ | _
              · simp only [ht] at h ⊢; exact hr _ _ _ h
              · simp only [ht] at h ⊢; exact hr _ _ _ h
              · simp only [ht] at h ⊢; exact h
            · simp only [hrt] at h ⊢
              exact hr _ _ _ h
        | null => exact h
        | bool b => exact h
        | num n => exact h
        | str s => exact h
        | arr xs => exact h
  | ref target =>
      simp only [step] at h ⊢
      by_cases hs : hasKey st target = true
      · rw [if_pos hs] at h ⊢; exact h
      · rw [if_neg hs] at h ⊢
        rcases hf : find_subschema_by_ref doc target with e | node
        · simp only [hf] at h; cases h
        · simp only [hf] at h ⊢
          exact hr _ _ _ h
  | arrayT key node =>
      simp only [step] at h ⊢
      by_cases hai : isSchemaValued (lookupKey (objEntries node) "additionalItems") = true
      · rw [if_pos hai] at h; cases h
      · rw [if_neg hai] at h ⊢
        rcases hit : lookupKey (objEntries node) "items" with _ | items
        · simp only [hit] at h ⊢; exact h
        · simp only [hit] at h ⊢
          rcases hrw : r1 st (.walk (key ++ "/items") items) with e | ⟨st1, rr⟩
          · simp only [hrw] at h; cases h
          · rw [hr _ _ _ hrw]
            simp only [hrw] at h
            exact h
  | objectT key node =>
      simp only [step] at h ⊢
      by_cases hap : isSchemaValued (lookupKey (objEntries node) "additionalProperties") = true
      · rw [if_pos hap] at h; cases h
      · rw [if_neg hap] at h ⊢
        rcases hp : lookupKey (objEntries node) "properties" with _ | props
        · simp only [hp] at h ⊢
          rcases hpp : lookupKey (objEntries node) "patternProperties" with _ | pp
          · simp only [hpp] at h ⊢; exact h
          · simp only [hpp] at h ⊢
            rcases hrw : r1 st (.entries key true (objEntries pp)) with e | ⟨st1, rr⟩
            · simp only [hrw] at h; cases h
            · rw [hr _ _ _ hrw]
              simp only [hrw] at h
              exact h
        · simp only [hp] at h ⊢
          by_cases hpat : hasKey (objEntries node) "patternProperties" = true
          · rw [if_pos hpat] at h; cases h
          · rw [if_neg hpat] at h ⊢
            rcases hrw : r1 (setKey st key .null) (.entries key false (objEntries props))
              with e | ⟨st1, rr⟩
            · simp only [hrw] at h; cases h
            · rw [hr _ _ _ hrw]
              simp only [hrw] at h
              exact h
  | entries base enc kvs =>
      cases kvs with
      | nil => exact h
      | cons kv rest =>
          obtain ⟨k0, v0⟩ := kv
          simp only [step] at h ⊢
          rcases hrw : r1 st
            (.walk (if enc then base ++ "/patternProperties/" ++ percentEncode k0
                    else base ++ "/properties/" ++ k0) v0) with e | ⟨st1, r1v⟩
          · simp only [hrw] at h; cases h
          · simp only [hr _ _ _ hrw]
            simp only [hrw] at h
            rcases hrw2 : r1 st1 (.entries base enc rest) with e | ⟨st2, rs⟩
            · simp only [hrw2] at h; cases h
            · simp only [hr _ _ _ hrw2]
              simp only [hrw2] at h
              exact h

theorem run_mono_fuel (doc : JSON) :
    ∀ f st j x, run doc f st j = .ok x → run doc (f + 1) st j = .ok x := by
  intro f
  induction f with
  | zero => intro st j x h; simp [run] at h
  | succ f ih =>
      intro st j x h
      rw [run_succ] at h ⊢
      exact step_mono_ok doc (run doc f) (run doc (f + 1)) (fun st j x h => ih st j x h)
        st j x h

theorem run_mono_le (doc : JSON) (f g : Nat) (hle : f ≤ g) :
    ∀ st j x, run doc f st j = .ok x → run doc g st j = .ok x := by
  induction g, hle using Nat.le_induction with
  | base => exact fun st j x h => h
  | succ g hfg ih => exact fun st j x h => run_mono_fuel doc g st j x (ih st j x h)

/-- Jobs on which a second run over a bigger map is state-preserving; an
object collapse of a `properties`-bearing node re-registers
unconditionally, but the walk only ever dispatches it for a pointer not
yet in the map, so it is excluded here and discharged via registration
in the walk case. -/
def jobGuard : Job → Prop
  | .objectT _ node => hasKey (objEntries node) "properties" = false
  | _ => True

theorem run_objectT_registers (doc : JSON) (f : Nat) (st : SMap) (key : String)
    (node : JSON) (st' : SMap) (r : JSON)
    (h : run doc f st (.objectT key node) = .ok (st', r))
    (hprops : hasKey (objEntries node) "properties" = true) :
    r = refObj key ∧ hasKey st' key = true := by
  cases f with
  | zero => simp [run] at h
  | succ f => exact object_with_properties_registers doc f st key node st' r hprops h

theorem run_idem (doc : JSON) :
    ∀ f st j st' r M, run doc f st j = .ok (st', r) →
      (∀ k, hasKey st' k = true → hasKey M k = true) →
      jobGuard j →
      ∃ r2, run doc f M j = .ok (M, r2) := by
  intro f
  induction f with
  | zero => intro st j st' r M h _ _; simp [run] at h
  | succ f ih =>
      intro st j st' r M h hsub hg
      rw [run_succ] at h ⊢
      cases j with
      | walk path node =>
          by_cases hsM : hasKey M path = true
          · exact ⟨refObj path, by simp [step, hsM]⟩
          · simp only [step] at h
            by_cases hs : hasKey st path = true
            · rw [if_pos hs] at h
              cases h
              exact absurd (hsub path hs) hsM
            · rw [if_neg hs] at h
              cases node with
              | obj kvs =>
                  rcases hrt : refTarget kvs with _ | target
                  · simp only [hrt] at h
                    rcases ht : typeKind (if hasCombinator kvs then
                        squash_array_keys path (.obj kvs) else .obj kvs) with _ | _ | _
                    · simp only [ht] at h
                      obtain ⟨r2, h2⟩ := ih _ _ _ _ _ h hsub trivial
                      exact ⟨r2, by
                        simp only [step]
                        rw [if_neg hsM]
                        simp only [hrt, ht]
                        exact h2⟩
                    · simp only [ht] at h
                      by_cases hpr : hasKey (objEntries (if hasCombinator kvs then
                          squash_array_keys path (.obj kvs) else .obj kvs)) "properties" = true
                      · obtain ⟨-, hreg⟩ := run_objectT_registers doc f st path _ st' r h hpr
                        exact absurd (hsub path hreg) hsM
                      · obtain ⟨r2, h2⟩ := ih _ _ _ _ _ h hsub
                          (by simpa [jobGuard] using hpr)
                        exact ⟨r2, by
                          simp only [step]
                          rw [if_neg hsM]
                          simp only [hrt, ht]
                          exact h2⟩
                    · refine ⟨if hasCombinator kvs then squash_array_keys path (.obj kvs)
                        else .obj kvs, ?_⟩
                      simp only [step]
                      rw [if_neg hsM]
                      simp only [hrt, ht]
                  · simp only [hrt] at h
                    obtain ⟨r2, h2⟩ := ih _ _ _ _ _ h hsub trivial
                    exact ⟨r2, by
                      simp only [step]
                      rw [if_neg hsM]
                      simp only [hrt]
                      exact h2⟩
              | null =>
                  cases h
                  exact ⟨.null, by simp only [step]; rw [if_neg hsM]⟩
              | bool b =>
                  cases h
                  exact ⟨.bool b, by simp only [step]; rw [if_neg hsM]⟩
              | num n =>
                  cases h
                  exact ⟨.num n, by simp only [step]; rw [if_neg hsM]⟩
              | str s =>
                  cases h
                  exact ⟨.str s, by simp only [step]; rw [if_neg hsM]⟩
              | arr xs =>
                  cases h
                  exact ⟨.arr xs, by simp only [step]; rw [if_neg hsM]⟩
      | ref target =>
          simp only [step] at h
          by_cases hsM : hasKey M target = true
          · exact ⟨refObj target, by simp [step, hsM]⟩
          · by_cases hs : hasKey st target = true
            · rw [if_pos hs] at h
              cases h
              exact absurd (hsub target hs) hsM
            · rw [if_neg hs] at h
              rcases hf : find_subschema_by_ref doc target with e | node
              · simp only [hf] at h; cases h
              · simp only [hf] at h
                obtain ⟨r2, h2⟩ := ih _ _ _ _ _ h hsub trivial
                exact ⟨r2, by
                  simp only [step]
                  rw [if_neg hsM]
                  simp only [hf]
                  exact h2⟩
      | arrayT key node =>
          simp only [step] at h
          by_cases hai : isSchemaValued (lookupKey (objEntries node) "additionalItems") = true
          · rw [if_pos hai] at h; cases h
          · rw [if_neg hai] at h
            rcases hit : lookupKey (objEntries node) "items" with _ | items
            · refine ⟨node, ?_⟩
              simp only [step]
              rw [if_neg hai]
              simp only [hit]
            · simp only [hit] at h
              rcases hrw : run doc f st (.walk (key ++ "/items") items) with e | ⟨st1, rr⟩
              · simp only [hrw] at h; cases h
              · simp only [hrw] at h
                injection h with hpair
                have h4 : st1 = st' := congrArg Prod.fst hpair
                obtain ⟨r2, h2⟩ := ih _ _ _ _ _ hrw (fun k hk => hsub k (h4 ▸ hk)) trivial
                refine ⟨setObjKey node "items" r2, ?_⟩
                simp only [step]
                rw [if_neg hai]
                simp only [hit, h2]
      | objectT key node =>
          simp only [step] at h
          by_cases hap : isSchemaValued (lookupKey (objEntries node) "additionalProperties") = true
          · rw [if_pos hap] at h; cases h
          · rw [if_neg hap] at h
            have hp : lookupKey (objEntries node) "properties" = none := by
              rcases hl : lookupKey (objEntries node) "properties" with _ | v
              · rfl
              · simp only [jobGuard] at hg
                simp [hasKey, hl] at hg
            simp only [hp] at h
            rcases hpp : lookupKey (objEntries node) "patternProperties" with _ | pp
            · refine ⟨node, ?_⟩
              simp only [step]
              rw [if_neg hap]
              simp only [hp, hpp]
            · simp only [hpp] at h
              rcases hrw : run doc f st (.entries key true (objEntries pp)) with e | ⟨st1, rr⟩
              · simp only [hrw] at h; cases h
              · simp only [hrw] at h
                injection h with hpair
                have h4 : st1 = st' := congrArg Prod.fst hpair
                obtain ⟨r2, h2⟩ := ih _ _ _ _ _ hrw (fun k hk => hsub k (h4 ▸ hk)) trivial
                refine ⟨setObjKey node "patternProperties" (.obj (objEntries r2)), ?_⟩
                simp only [step]
                rw [if_neg hap]
                simp only [hp, hpp, h2]
      | entries base enc kvs =>
          cases kvs with
          | nil =>
              simp only [step] at h
              cases h
              exact ⟨.obj [], by simp [step]⟩
          | cons kv rest =>
              obtain ⟨k0, v0⟩ := kv
              simp only [step] at h
              rcases hrw : run doc f st
                (.walk (if enc then base ++ "/patternProperties/" ++ percentEncode k0
                        else base ++ "/properties/" ++ k0) v0) with e | ⟨st1, rv⟩
              · simp only [hrw] at h; cases h
              · simp only [hrw] at h
                rcases hrw2 : run doc f st1 (.entries base enc rest) with e | ⟨st2, rs⟩
                · simp only [hrw2] at h; cases h
                · simp only [hrw2] at h
                  injection h with hpair
                  have h4 : st2 = st' := congrArg Prod.fst hpair
                  have hsub2 : ∀ k, hasKey st2 k = true → hasKey M k = true :=
                    fun k hk => hsub k (h4 ▸ hk)
                  have hsub1 : ∀ k, hasKey st1 k = true → hasKey M k = true :=
                    fun k hk => hsub2 k (run_mono_keys doc f st1 _ st2 rs hrw2 k hk)
                  obtain ⟨r2, h2⟩ := ih _ _ _ _ _ hrw hsub1 trivial
                  obtain ⟨rs2, h3⟩ := ih _ _ _ _ _ hrw2 hsub2 trivial
                  refine ⟨.obj ((k0, r2) :: objEntries rs2), ?_⟩
                  simp only [step, h2, h3]

/-- C4: normalization is deterministic and idempotent: the canonical map
is a function of the document alone (any two successful runs, at any
sufficient fuel, produce the identical map), and re-running the
normalizer walk over a map that is already canonical is a fixed point:
the walk returns the very same map, unchanged. -/
theorem C4_deterministic_idempotent :
    (∀ doc f g m m', collapse_and_resolve_schema doc f = .ok m →
      collapse_and_resolve_schema doc g = .ok m' → m = m') ∧
    (∀ doc f m, collapse_and_resolve_schema doc f = .ok m →
      collapse_and_resolve_from doc f m = .ok m) := by
  constructor
  · intro doc f g m m' h1 h2
    rcases hr1 : run doc f [] (.walk "#" doc) with e | ⟨st1, r1⟩
    · simp only [collapse_and_resolve_schema, hr1] at h1
      cases h1
    · simp only [collapse_and_resolve_schema, hr1] at h1
      rcases hr2 : run doc g [] (.walk "#" doc) with e | ⟨st2, r2⟩
      · simp only [collapse_and_resolve_schema, hr2] at h2
        cases h2
      · simp only [collapse_and_resolve_schema, hr2] at h2
        have m1 := run_mono_le doc f (max f g) (Nat.le_max_left f g) _ _ _ hr1
        have m2 := run_mono_le doc g (max f g) (Nat.le_max_right f g) _ _ _ hr2
        rw [m1] at m2
        injection m2 with hpair
        have hst : st1 = st2 := congrArg Prod.fst hpair
        injection h1 with h1'
        injection h2 with h2'
        rw [← h1', ← h2', hst]
  · intro doc f m h
    rcases hr : run doc f [] (.walk "#" doc) with e | ⟨st, r⟩
    · simp only [collapse_and_resolve_schema, hr] at h
      cases h
    · simp only [collapse_and_resolve_schema, hr] at h
      injection h with h'
      obtain ⟨r2, h2⟩ := run_idem doc f [] _ st r m hr (fun k hk => h' ▸ hk) trivial
      simp only [collapse_and_resolve_from, h2]

/-- Witness for C4 at a concrete document. -/
theorem C4_deterministic_idempotent_witness :
    collapse_and_resolve_schema dedupDoc 30 = .ok dedupMap ∧
    dedupMap = dedupMap ∧
    collapse_and_resolve_from dedupDoc 30 dedupMap = .ok dedupMap := by
  refine ⟨rfl, ?_, ?_⟩
  · exact C4_deterministic_idempotent.1 dedupDoc 30 31 dedupMap dedupMap
      (by rfl) (by rfl)
  · exact C4_deterministic_idempotent.2 dedupDoc 30 dedupMap (by rfl)

theorem hasKey_setKey_ne (kvs : List (String × JSON)) (k k' : String) (v : JSON)
    (h : k' ≠ k) : hasKey (setKey kvs k v) k' = hasKey kvs k' := by
  simp [hasKey, lookup_setKey_other kvs k k' v h]

/-- During the children walk of an object collapse, a child whose value
is a direct back-reference to the parent pointer (already in the map as
a placeholder) rewrites to `{"$ref": parent}`: the re-entry check fires
instead of recursing. Stated for any child position, under the
hypothesis that the synthesized child pointer does not end up as a map
key itself. -/
theorem entries_self_child (doc : JSON) (key : String) :
    ∀ f kvs st name st' rs,
      run doc f st (.entries key false kvs) = .ok (st', rs) →
      lookupKey kvs name = some (.obj [("$ref", .str key)]) →
      hasKey st key = true →
      hasKey st' (key ++ "/properties/" ++ name) = false →
      lookupKey (objEntries rs) name = some (refObj key) := by
  intro f
  induction f with
  | zero => intro kvs st name st' rs h _ _ _; simp [run] at h
  | succ f ih =>
      intro kvs st name st' rs h hn hkey hcp
      rw [run_succ] at h
      cases kvs with
      | nil => simp [lookupKey] at hn
      | cons kv rest =>
          obtain ⟨k0, v0⟩ := kv
          simp only [step] at h
          have hchild : (if false = true then key ++ "/patternProperties/" ++ percentEncode k0
              else key ++ "/properties/" ++ k0) = key ++ "/properties/" ++ k0 := rfl
          rw [hchild] at h
          rcases hrw : run doc f st (.walk (key ++ "/properties/" ++ k0) v0)
            with e | ⟨st1, r1⟩
          · simp only [hrw] at h; cases h
          · simp only [hrw] at h
            rcases hrw2 : run doc f st1 (.entries key false rest) with e | ⟨st2, rs2⟩
            · simp only [hrw2] at h; cases h
            · simp only [hrw2] at h
              injection h with hpair
              have hst : st2 = st' := congrArg Prod.fst hpair
              have hrs : JSON.obj ((k0, r1) :: objEntries rs2) = rs :=
                congrArg Prod.snd hpair
              by_cases hk0 : k0 = name
              · subst hk0
                have hv0 : v0 = .obj [("$ref", .str key)] := by
                  simpa [lookupKey] using hn
                subst hv0
                have hcp0 : hasKey st (key ++ "/properties/" ++ k0) = false := by
                  cases hb : hasKey st (key ++ "/properties/" ++ k0) with
                  | false => rfl
                  | true =>
                      have h1 := run_mono_keys doc f st _ st1 r1 hrw _ hb
                      have h2 := run_mono_keys doc f st1 _ st2 rs2 hrw2 _ h1
                      rw [hst] at h2
                      rw [h2] at hcp
                      cases hcp
                cases f with
                | zero => simp [run] at hrw
                | succ g =>
                    rw [run_succ] at hrw
                    simp only [step] at hrw
                    rw [if_neg (by simp [hcp0])] at hrw
                    have hrt : refTarget [("$ref", JSON.str key)] = some key := rfl
                    simp only [hrt] at hrw
                    cases g with
                    | zero => simp [run] at hrw
                    | succ g2 =>
                        rw [run_succ] at hrw
                        simp only [step] at hrw
                        rw [if_pos hkey] at hrw
                        injection hrw with hpair2
                        have hr1 : refObj key = r1 := congrArg Prod.snd hpair2
                        rw [← hrs]
                        simp [objEntries, lookupKey, ← hr1]
              · have hn2 : lookupKey rest name = some (.obj [("$ref", .str key)]) := by
                  simpa [lookupKey, hk0] using hn
                have hkey1 : hasKey st1 key = true :=
                  run_mono_keys doc f st _ st1 r1 hrw key hkey
                have hcp2 : hasKey st2 (key ++ "/properties/" ++ name) = false := by
                  rw [hst]; exact hcp
                have hres := ih rest st1 name st2 rs2 hrw2 hn2 hkey1 hcp2
                rw [← hrs]
                show lookupKey ((k0, r1) :: objEntries rs2) name = some (refObj key)
                simp only [lookupKey, if_neg hk0]
                exact hres

/-- Cyclic-edge materialization, generally: for every document, state,
fuel and `properties`-bearing node one of whose properties is a direct
back-reference to the node's own pointer, a successful object collapse
registers the node under that pointer and the registered entry carries
the cyclic edge as `{"$ref": pointer}` — a `$ref` whose target pointer
is a key of the resulting map — provided the synthesized child pointer
is not itself a key of that map. -/
theorem object_self_cycle_materializes (doc : JSON) :
    ∀ f st key node props name st2 r,
      collapse_object_type doc f st key node = .ok (st2, r) →
      lookupKey (objEntries node) "properties" = some props →
      lookupKey (objEntries props) name = some (.obj [("$ref", .str key)]) →
      hasKey st2 (key ++ "/properties/" ++ name) = false →
      hasKey st2 key = true ∧
      ∃ entry, lookupKey st2 key = some entry ∧
        getAtPath entry ["properties", name] = some (refObj key) := by
  intro f st key node props name st2 r h hp hn hcp
  cases f with
  | zero => simp [collapse_object_type, run] at h
  | succ g =>
      simp only [collapse_object_type] at h
      rw [run_succ] at h
      simp only [step] at h
      by_cases hap : isSchemaValued (lookupKey (objEntries node) "additionalProperties") = true
      · rw [if_pos hap] at h; cases h
      · rw [if_neg hap] at h
        simp only [hp] at h
        by_cases hpat : hasKey (objEntries node) "patternProperties" = true
        · rw [if_pos hpat] at h; cases h
        · rw [if_neg hpat] at h
          rcases he : run doc g (setKey st key .null) (.entries key false (objEntries props))
            with e | ⟨st1, rr⟩
          · simp only [he] at h; cases h
          · simp only [he] at h
            injection h with hpair
            have hst2 : setKey st1 key (setObjKey node "properties" (.obj (objEntries rr))) = st2 :=
              congrArg Prod.fst hpair
            have hcp1 : hasKey st1 (key ++ "/properties/" ++ name) = false := by
              cases hb : hasKey st1 (key ++ "/properties/" ++ name) with
              | false => rfl
              | true =>
                  have hb2 := hasKey_setKey_of st1 key (key ++ "/properties/" ++ name)
                    (setObjKey node "properties" (.obj (objEntries rr))) hb
                  rw [hst2] at hb2
                  rw [hb2] at hcp
                  cases hcp
            have hlk := entries_self_child doc key g (objEntries props)
              (setKey st key .null) name st1 rr he hn
              (hasKey_setKey_self st key .null) hcp1
            constructor
            · rw [← hst2]
              exact hasKey_setKey_self st1 key _
            · refine ⟨setObjKey node "properties" (.obj (objEntries rr)), ?_, ?_⟩
              · rw [← hst2]
                exact lookup_setKey_self st1 key _
              · cases node with
                | obj kvs =>
                    simp only [setObjKey, getAtPath, lookup_setKey_self]
                    simp [getAtPath, hlk]
                | null => simp [objEntries, lookupKey] at hp
                | bool b => simp [objEntries, lookupKey] at hp
                | num n => simp [objEntries, lookupKey] at hp
                | str sx => simp [objEntries, lookupKey] at hp
                | arr xs => simp [objEntries, lookupKey] at hp

/-- C1 amended: universal termination is false (counterexample), but the
cycle-breaking mechanism itself is general: re-entry into any pointer
already present in the map — a still-unreplaced placeholder included —
returns `{"$ref": pointer}` without recursing; for every document,
state, fuel and `properties`-bearing node carrying a directly
self-referential property, a successful collapse registers the node
under its own pointer and the cyclic edge materializes in the registered
entry as a `$ref` whose target pointer is a key of the resulting map
(provided the synthesized child pointer is not itself a map key); and
the circular-reference test shape is exercised end to end: normalization
terminates on it and its cyclic edge's `$ref` target is a key of its
map. -/
theorem C1_amended_cycle_breaking :
    (∀ doc f st p n, hasKey st p = true →
      walk doc (f + 1) st p n = .ok (st, refObj p)) ∧
    (∀ doc f st key node props name st2 r,
      collapse_object_type doc f st key node = .ok (st2, r) →
      lookupKey (objEntries node) "properties" = some props →
      lookupKey (objEntries props) name = some (.obj [("$ref", .str key)]) →
      hasKey st2 (key ++ "/properties/" ++ name) = false →
      hasKey st2 key = true ∧
      ∃ entry, lookupKey st2 key = some entry ∧
        getAtPath entry ["properties", name] = some (refObj key)) ∧
    collapse_and_resolve_schema circularDoc 30 = .ok circularMap ∧
    hasKey circularMap "#/definitions/a" = true ∧
    getAtPath (.obj circularMap) ["#/definitions/a", "properties", "self"] =
      some (refObj "#/definitions/a") := by
  exact ⟨fun doc f st p n h => walk_seen doc f st p n h,
    fun doc f st key node props name st2 r h hp hn hcp =>
      object_self_cycle_materializes doc f st key node props name st2 r h hp hn hcp,
    rfl, rfl, rfl⟩

/-- Witness for C1's amended theorem: re-entry into a placeholder at a
concrete pointer yields the back-reference, and collapsing the concrete
self-recursive definition node registers it with its cyclic edge as a
back-reference to itself. -/
theorem C1_amended_cycle_breaking_witness :
    walk circularDoc 5 [("#/definitions/a", .null)] "#/definitions/a"
      (.obj [("type", .str "object")]) =
      .ok ([("#/definitions/a", .null)], refObj "#/definitions/a") ∧
    (hasKey [("#/definitions/a", JSON.obj [("type", .str "object"),
        ("properties", .obj [("self", refObj "#/definitions/a")])])]
      "#/definitions/a" = true ∧
     ∃ entry, lookupKey [("#/definitions/a", JSON.obj [("type", .str "object"),
        ("properties", .obj [("self", refObj "#/definitions/a")])])]
        "#/definitions/a" = some entry ∧
       getAtPath entry ["properties", "self"] = some (refObj "#/definitions/a")) := by
  constructor
  · exact C1_amended_cycle_breaking.1 circularDoc 4
      [("#/definitions/a", .null)] "#/definitions/a"
      (.obj [("type", .str "object")]) (by rfl)
  · exact C1_amended_cycle_breaking.2.1 circularDoc 10 [] "#/definitions/a"
      (.obj [("type", .str "object"),
             ("properties", .obj [("self", .obj [("$ref", .str "#/definitions/a")])])])
      (.obj [("self", .obj [("$ref", .str "#/definitions/a")])]) "self"
      [("#/definitions/a", .obj [("type", .str "object"),
        ("properties", .obj [("self", refObj "#/definitions/a")])])]
      (refObj "#/definitions/a") (by rfl) (by rfl) (by rfl) (by rfl)

/-- Witness for C10 at concrete inputs. -/
theorem C10_render_jinja_all_or_nothing_witness :
    render_jinja (.obj [("CREATE", .obj [("/p", .str "\x7b\x7bMissing\x7d\x7d")])]) [] =
      emptyOverrideJ ∧
    render_jinja (.obj [("CREATE", .obj [])]) [] = .obj [("CREATE", .obj [])] ∧
    render_jinja (.obj [("CREATE", .obj [("/p", .str "\x7b\x7bX\x7d\x7d")])]) [("X", "1")] =
      substJ [("X", "1")] (.obj [("CREATE", .obj [("/p", .str "\x7b\x7bX\x7d\x7d")])]) := by
  refine ⟨?_, ?_, ?_⟩
  · exact C10_render_jinja_all_or_nothing.1
      (.obj [("CREATE", .obj [("/p", .str "\x7b\x7bMissing\x7d\x7d")])]) [] "Missing"
      (by decide) (by rfl)
  · exact C10_render_jinja_all_or_nothing.2.1 (.obj [("CREATE", .obj [])]) [] (by rfl)
  · exact C10_render_jinja_all_or_nothing.2.2.1
      (.obj [("CREATE", .obj [("/p", .str "\x7b\x7bX\x7d\x7d")])]) [("X", "1")]
      (by decide) (by decide)

end Rpdk
